import Mathlib

/-!
Shallow embedding of the valutatrade_hub core (models.py, utils.py,
usecases.py) and proofs about its specification claims.

Modelling conventions:
- Python floats are modelled as exact rationals; the claims under study are
  structural (which balances change, by how much, in which order the guards
  fire), not about rounding.
- Python exceptions are modelled with Except over the error type VtError.
  An exception that a use-case method does not catch is reported as a
  distinguished crashed result with the ledger unchanged (the durable store
  is only written by an explicit save at the end of a successful path).
- Python dicts are modelled as association lists with first-match lookup and
  the insertion semantics of dict assignment: updating an existing key keeps
  its position, a new key is appended.  This preserves iteration order,
  which the funding-selection and target-selection policies depend on.
- The recursion in get_exchange_rate is not structurally well founded for
  unregistered codes; CPython bounds it by the interpreter recursion limit,
  and the resulting RecursionError is caught by the bare except clause and
  converted to ValueError.  The model makes that bound an explicit fuel
  argument, with RECURSION_LIMIT standing for the interpreter limit.
-/

/-- Error kinds raised by the core (models.py / utils.py). -/
inductive VtError where
  | currencyNotFound (code : String)
  | insufficientFunds (currency_code : String) (available required : ℚ)
  | valueError (msg : String)
  | recursionLimit
  deriving DecidableEq, Repr

/-- Fiat versus crypto metadata, models the FiatCurrency / CryptoCurrency
subclasses in models.py. -/
inductive CurrencyKind where
  | fiat (issuing_country : String)
  | crypto (algorithm : String)
  deriving DecidableEq, Repr

/-- Models the Currency class of models.py: a name, an upper-cased code and
kind-specific metadata. -/
structure Currency where
  name : String
  code : String
  kind : CurrencyKind
  deriving DecidableEq, Repr

/-- ASCII upper-casing of a string, models the str.upper calls of the source
(all currency codes in play are ASCII). -/
def pyUpper (s : String) : String := String.mk (s.data.map Char.toUpper)

/-- First-match lookup in an association list, models Python dict.get. -/
def dictGet {α : Type} (m : List (String × α)) (k : String) : Option α :=
  match m with
  | [] => none
  | (k', v) :: rest => if k' = k then some v else dictGet rest k

/-- Python dict assignment: an existing key keeps its position and gets the
new value, a fresh key is appended at the end. -/
def dictInsert {α : Type} (m : List (String × α)) (k : String) (v : α) :
    List (String × α) :=
  match m with
  | [] => [(k, v)]
  | (k', v') :: rest =>
      if k' = k then (k, v) :: rest else (k', v') :: dictInsert rest k v

/-- The five-entry currency catalog populated by init_currencies in
models.py. -/
def CURRENCY_REGISTRY : List (String × Currency) :=
  [ ("USD", ⟨"US Dollar", "USD", .fiat "United States"⟩),
    ("EUR", ⟨"Euro", "EUR", .fiat "Eurozone"⟩),
    ("BTC", ⟨"Bitcoin", "BTC", .crypto "SHA-256"⟩),
    ("ETH", ⟨"Ethereum", "ETH", .crypto "Ethash"⟩),
    ("RUB", ⟨"Russian Ruble", "RUB", .fiat "Russia"⟩) ]

/-- Models get_currency of models.py: upper-case the code, look it up in the
registry, raise CurrencyNotFoundError when absent. -/
def get_currency (code : String) : Except VtError Currency :=
  match dictGet CURRENCY_REGISTRY (pyUpper code) with
  | some c => .ok c
  | none => .error (.currencyNotFound (pyUpper code))

/-- Models the Wallet class of models.py: the resolved Currency object plus a
balance.  The constructor validation lives in mkWallet. -/
structure Wallet where
  currency : Currency
  balance : ℚ
  deriving DecidableEq, Repr

/-- Models Wallet.__init__: resolving the currency code can raise
CurrencyNotFoundError; the initial balance is stored unchecked. -/
def mkWallet (currency_code : String) (balance : ℚ) : Except VtError Wallet := do
  let c ← get_currency currency_code
  .ok ⟨c, balance⟩

/-- The currency_code property of Wallet. -/
def Wallet.currency_code (w : Wallet) : String := w.currency.code

/-- The balance setter of Wallet: rejects negative values. -/
def Wallet.setBalance (w : Wallet) (value : ℚ) : Except VtError Wallet :=
  if value < 0 then .error (.valueError "negative balance")
  else .ok { w with balance := value }

/-- Models Wallet.deposit: a non-positive amount raises ValueError, otherwise
the balance grows through the setter. -/
def Wallet.deposit (w : Wallet) (amount : ℚ) : Except VtError Wallet :=
  if amount ≤ 0 then .error (.valueError "deposit amount must be positive")
  else w.setBalance (w.balance + amount)

/-- Models Wallet.withdraw: a non-positive amount raises ValueError, an
amount above the balance raises InsufficientFundsError, otherwise the
balance shrinks through the setter. -/
def Wallet.withdraw (w : Wallet) (amount : ℚ) : Except VtError Wallet :=
  if amount ≤ 0 then .error (.valueError "withdraw amount must be positive")
  else if amount > w.balance then
    .error (.insufficientFunds w.currency_code w.balance amount)
  else w.setBalance (w.balance - amount)

/-- The serialized form of a wallet (Wallet.to_dict / Wallet.from_dict). -/
structure WalletDict where
  currency_code : String
  balance : ℚ
  deriving DecidableEq, Repr

/-- Models Wallet.to_dict. -/
def Wallet.to_dict (w : Wallet) : WalletDict :=
  ⟨w.currency_code, w.balance⟩

/-- Models Wallet.from_dict: re-runs the validating constructor. -/
def Wallet.from_dict (d : WalletDict) : Except VtError Wallet :=
  mkWallet d.currency_code d.balance

/-- The static rate table inside get_exchange_rate (utils.py), with the float
literals read as exact decimals. -/
def ratesTable : List (String × ℚ) :=
  [ ("USD_USD", 1),
    ("RUB_RUB", 1),
    ("EUR_EUR", 1),
    ("BTC_BTC", 1),
    ("ETH_ETH", 1),
    ("USD_EUR", 92/100),
    ("EUR_USD", 108/100),
    ("USD_BTC", 1685/100000000),
    ("BTC_USD", 5933721/100),
    ("USD_ETH", 27/100000),
    ("ETH_USD", 3720),
    ("USD_RUB", 985/10),
    ("RUB_USD", 1016/100000),
    ("EUR_RUB", 10638/100),
    ("RUB_EUR", 94/10000),
    ("BTC_EUR", 5459023/100),
    ("EUR_BTC", 183/10000000),
    ("BTC_RUB", 5844705),
    ("RUB_BTC", 171/1000000000),
    ("ETH_EUR", 34224/10),
    ("EUR_ETH", 292/1000000),
    ("ETH_RUB", 366420),
    ("RUB_ETH", 273/100000000) ]

/-- Stands for the CPython interpreter recursion limit that bounds the
recursion of get_exchange_rate. -/
def RECURSION_LIMIT : Nat := 1000

/-- Models get_exchange_rate of utils.py.  The fuel argument models the
interpreter recursion limit: a call at exhausted fuel is the RecursionError,
and the bare except clause around the two recursive calls converts any
failure of a leg into the final ValueError. -/
def get_exchange_rate : Nat → String → String → Except VtError ℚ
  | 0, _, _ => .error .recursionLimit
  | fuel + 1, from_currency, to_currency =>
    let key := pyUpper from_currency ++ "_" ++ pyUpper to_currency
    if pyUpper from_currency = pyUpper to_currency then .ok 1
    else
      match dictGet ratesTable key with
      | some r => .ok r
      | none =>
          match get_exchange_rate fuel from_currency "USD" with
          | .ok rate_to_usd =>
              match get_exchange_rate fuel "USD" to_currency with
              | .ok rate_from_usd => .ok (rate_to_usd * rate_from_usd)
              | .error _ => .error (.valueError "rate not found")
          | .error _ => .error (.valueError "rate not found")

instance {α β : Type} [DecidableEq α] [DecidableEq β] : DecidableEq (Except α β) :=
  fun a b =>
    match a, b with
    | .ok x, .ok y =>
        if h : x = y then .isTrue (by rw [h]) else .isFalse (by simp [h])
    | .error x, .error y =>
        if h : x = y then .isTrue (by rw [h]) else .isFalse (by simp [h])
    | .ok _, .error _ => .isFalse (by simp)
    | .error _, .ok _ => .isFalse (by simp)

example : get_exchange_rate 3 "usd" "EUR" = .ok (92/100) := by rfl
example : get_exchange_rate 3 "BTC" "BTC" = .ok 1 := by rfl
example : get_exchange_rate 3 "BTC" "ETH" = .ok ((5933721/100) * (27/100000)) := by
  rfl
example : get_exchange_rate 2 "XYZ" "USD" = .error (.valueError "rate not found") := by
  rfl

/-- Models the User class of models.py (the fields the trade engine sees). -/
structure User where
  user_id : Int
  username : String
  hashed_password : String
  salt : String
  deriving DecidableEq, Repr

/-- Models the Portfolio class of models.py: a user id and an
insertion-ordered mapping from currency-code keys to wallets. -/
structure Portfolio where
  user_id : Int
  wallets : List (String × Wallet)
  deriving DecidableEq, Repr

/-- Models Portfolio.__init__: an empty wallet mapping. -/
def Portfolio.empty (user_id : Int) : Portfolio := ⟨user_id, []⟩

/-- Models Portfolio.add_wallet: upper-case the code, reject a duplicate key
with ValueError, otherwise create a zero-balance wallet (whose constructor
validates the code) and insert it. -/
def Portfolio.add_wallet (p : Portfolio) (currency_code : String) :
    Except VtError (Wallet × Portfolio) :=
  let cc := pyUpper currency_code
  if (dictGet p.wallets cc).isSome then .error (.valueError "wallet exists")
  else do
    let w ← mkWallet cc 0
    .ok (w, ⟨p.user_id, dictInsert p.wallets cc w⟩)

/-- Models Portfolio.get_wallet: lookup under the upper-cased code. -/
def Portfolio.get_wallet (p : Portfolio) (currency_code : String) :
    Option Wallet :=
  dictGet p.wallets (pyUpper currency_code)

/-- The serialized form of a portfolio (Portfolio.to_dict /
Portfolio.from_dict), which is also one record of the persisted ledger. -/
structure PortfolioDict where
  user_id : Int
  wallets : List (String × WalletDict)
  deriving DecidableEq, Repr

/-- Models Portfolio.to_dict: the user id plus each wallet serialized under
its portfolio key. -/
def Portfolio.to_dict (p : Portfolio) : PortfolioDict :=
  ⟨p.user_id, p.wallets.map (fun kv => (kv.1, kv.2.to_dict))⟩

/-- One iteration of the Portfolio.from_dict loop: rebuild the wallet through
the validating constructor and assign it under the raw key from the record. -/
def fromDictStep (acc : List (String × Wallet)) (kv : String × WalletDict) :
    Except VtError (List (String × Wallet)) := do
  let w ← Wallet.from_dict kv.2
  pure (dictInsert acc kv.1 w)

/-- Models Portfolio.from_dict: rebuild each wallet through the validating
constructor and assign it under the raw key from the record. -/
def Portfolio.from_dict (data : PortfolioDict) : Except VtError Portfolio := do
  let ws ← data.wallets.foldlM fromDictStep []
  .ok ⟨data.user_id, ws⟩

/-- The persisted collection of portfolio records (portfolios.json). -/
abbrev Ledger := List PortfolioDict

/-- Replace the first ledger record with the given user id, or append the
record when none matches: the save loop of buy and deposit. -/
def saveLedger (ledger : Ledger) (user_id : Int) (pd : PortfolioDict) : Ledger :=
  match ledger with
  | [] => [pd]
  | p :: rest =>
      if p.user_id = user_id then pd :: rest
      else p :: saveLedger rest user_id pd

/-- Replace the first ledger record with the given user id, leaving the
ledger unchanged when none matches: the save loop of sell, which has no
append branch. -/
def replaceLedger (ledger : Ledger) (user_id : Int) (pd : PortfolioDict) :
    Ledger :=
  match ledger with
  | [] => []
  | p :: rest =>
      if p.user_id = user_id then pd :: rest
      else p :: replaceLedger rest user_id pd

/-- Update the wallet stored at a key in place (the functional image of
mutating the wallet object held in the dict); an error of the update
function propagates, a missing key is the AttributeError of calling a method
on None. -/
def updAssoc (m : List (String × Wallet)) (key : String)
    (f : Wallet → Except VtError Wallet) :
    Except VtError (List (String × Wallet)) :=
  match m with
  | [] => .error (.valueError "attribute error")
  | (k, w) :: rest =>
      if k = key then do
        let w' ← f w
        .ok ((k, w') :: rest)
      else do
        let r ← updAssoc rest key f
        .ok ((k, w) :: r)

/-- Portfolio-level wrapper around updAssoc. -/
def Portfolio.updateWallet (p : Portfolio) (key : String)
    (f : Wallet → Except VtError Wallet) : Except VtError Portfolio := do
  let ws ← updAssoc p.wallets key f
  .ok ⟨p.user_id, ws⟩

/-- The outcome of a PortfolioManager method.  Success and each distinct
failure message of usecases.py get their own constructor; crashed stands for
an exception the method does not catch, and caughtError for the blanket
except clause of sell around withdraw and deposit. -/
inductive OpResult where
  | ok
  | okRate (rate inverse_rate : ℚ)
  | okShown (total : ℚ)
  | notLoggedIn
  | unknownCurrency
  | invalidAmount
  | noFundingSource
  | rateUnavailable
  | insufficientFunds
  | noPortfolio
  | noWallet
  | caughtError
  | crashed (e : VtError)
  deriving DecidableEq, Repr

namespace PortfolioManager

/-- The load step shared by buy and deposit: the first matching record is
deserialized, a missing record yields a fresh empty portfolio. -/
def loadOrCreate (ledger : Ledger) (user_id : Int) : Except VtError Portfolio :=
  match ledger.find? (fun p => p.user_id == user_id) with
  | some pd => Portfolio.from_dict pd
  | none => .ok (Portfolio.empty user_id)

/-- The funding-selection loop of PortfolioManager.buy: the keys of the
portfolio whose upper-cased code differs from the upper-cased target and
whose wallet (looked up through get_wallet) has strictly positive balance,
in iteration order. -/
def availablePaymentCurrencies (portfolio : Portfolio) (currency_code : String) :
    List String :=
  portfolio.wallets.filterMap (fun kv =>
    if pyUpper kv.1 ≠ pyUpper currency_code then
      match portfolio.get_wallet kv.1 with
      | some w => if 0 < w.balance then some kv.1 else none
      | none => none
    else none)

/-- The ensure-target step of buy and sell: return the portfolio unchanged
when a wallet for the code exists, otherwise add a zero-balance wallet. -/
def ensureWallet (portfolio : Portfolio) (currency_code : String) :
    Except VtError Portfolio :=
  match portfolio.get_wallet currency_code with
  | some _ => .ok portfolio
  | none => (portfolio.add_wallet currency_code).map (fun r => r.2)

/-- Models PortfolioManager.buy of usecases.py, as a function of the current
session user, the arguments and the persisted ledger; returns the outcome
and the ledger after the call. -/
def buy (current_user : Option User) (currency_code : String) (amount : ℚ)
    (ledger : Ledger) : OpResult × Ledger :=
  match current_user with
  | none => (.notLoggedIn, ledger)
  | some user =>
    match get_currency currency_code with
    | .error _ => (.unknownCurrency, ledger)
    | .ok _ =>
      if amount ≤ 0 then (.invalidAmount, ledger)
      else
        match loadOrCreate ledger user.user_id with
        | .error e => (.crashed e, ledger)
        | .ok portfolio =>
          match (availablePaymentCurrencies portfolio currency_code).head? with
          | none => (.noFundingSource, ledger)
          | some payment_currency =>
            match portfolio.get_wallet payment_currency with
            | none => (.crashed (.valueError "attribute error"), ledger)
            | some payment_wallet =>
              match get_exchange_rate RECURSION_LIMIT currency_code
                  payment_currency with
              | .error _ => (.rateUnavailable, ledger)
              | .ok rate =>
                if payment_wallet.balance < amount * rate then
                  (.insufficientFunds, ledger)
                else
                  match ensureWallet portfolio currency_code with
                  | .error e => (.crashed e, ledger)
                  | .ok p1 =>
                    match p1.updateWallet (pyUpper payment_currency)
                        (fun w => w.withdraw (amount * rate)) with
                    | .error (.insufficientFunds _ _ _) =>
                        (.insufficientFunds, ledger)
                    | .error e => (.crashed e, ledger)
                    | .ok p2 =>
                      match p2.updateWallet (pyUpper currency_code)
                          (fun w => w.deposit amount) with
                      | .error (.insufficientFunds _ _ _) =>
                          (.insufficientFunds, ledger)
                      | .error e => (.crashed e, ledger)
                      | .ok p3 =>
                          (.ok, saveLedger ledger user.user_id p3.to_dict)

/-- The target-selection block of PortfolioManager.sell: USD unless the
portfolio is nonempty without a USD key, in which case the first key that
differs from the raw source string (USD again when only the source key
exists). -/
def sellTargetCurrency (portfolio : Portfolio) (currency_code : String) :
    String :=
  if (dictGet portfolio.wallets "USD").isNone ∧ portfolio.wallets ≠ [] then
    match (portfolio.wallets.map (fun kv => kv.1)).find?
        (fun k => k != currency_code) with
    | some k => k
    | none => "USD"
  else "USD"

/-- Models PortfolioManager.sell of usecases.py. -/
def sell (current_user : Option User) (currency_code : String) (amount : ℚ)
    (ledger : Ledger) : OpResult × Ledger :=
  match current_user with
  | none => (.notLoggedIn, ledger)
  | some user =>
    match get_currency currency_code with
    | .error _ => (.unknownCurrency, ledger)
    | .ok _ =>
      if amount ≤ 0 then (.invalidAmount, ledger)
      else
        match ledger.find? (fun p => p.user_id == user.user_id) with
        | none => (.noPortfolio, ledger)
        | some pd =>
          match Portfolio.from_dict pd with
          | .error e => (.crashed e, ledger)
          | .ok portfolio =>
            match portfolio.get_wallet currency_code with
            | none => (.noWallet, ledger)
            | some source_wallet =>
              if source_wallet.balance < amount then
                (.insufficientFunds, ledger)
              else
                match get_exchange_rate RECURSION_LIMIT currency_code
                    (sellTargetCurrency portfolio currency_code) with
                | .error _ => (.rateUnavailable, ledger)
                | .ok rate =>
                  match ensureWallet portfolio
                      (sellTargetCurrency portfolio currency_code) with
                  | .error e => (.crashed e, ledger)
                  | .ok p1 =>
                    match p1.updateWallet (pyUpper currency_code)
                        (fun w => w.withdraw amount) with
                    | .error _ => (.caughtError, ledger)
                    | .ok p2 =>
                      match p2.updateWallet
                          (pyUpper (sellTargetCurrency portfolio currency_code))
                          (fun w => w.deposit (amount * rate)) with
                      | .error _ => (.caughtError, ledger)
                      | .ok p3 =>
                          (.ok, replaceLedger ledger user.user_id p3.to_dict)

/-- Models PortfolioManager.deposit of usecases.py. -/
def deposit (current_user : Option User) (currency_code : String) (amount : ℚ)
    (ledger : Ledger) : OpResult × Ledger :=
  match current_user with
  | none => (.notLoggedIn, ledger)
  | some user =>
    if amount ≤ 0 then (.invalidAmount, ledger)
    else
      match get_currency currency_code with
      | .error _ => (.unknownCurrency, ledger)
      | .ok _ =>
        match loadOrCreate ledger user.user_id with
        | .error e => (.crashed e, ledger)
        | .ok portfolio =>
          match ensureWallet portfolio currency_code with
          | .error e => (.crashed e, ledger)
          | .ok p1 =>
            match p1.updateWallet (pyUpper currency_code)
                (fun w => w.deposit amount) with
            | .error e => (.crashed e, ledger)
            | .ok p2 => (.ok, saveLedger ledger user.user_id p2.to_dict)

/-- Models PortfolioManager.get_rate of usecases.py; note that the method
never consults the session user. -/
def get_rate (current_user : Option User) (from_currency to_currency : String) :
    OpResult :=
  match get_currency from_currency with
  | .error _ => .unknownCurrency
  | .ok _ =>
    match get_currency to_currency with
    | .error _ => .unknownCurrency
    | .ok _ =>
      match get_exchange_rate RECURSION_LIMIT from_currency to_currency with
      | .error _ => .rateUnavailable
      | .ok rate => .okRate rate (if rate ≠ 0 then 1 / rate else 0)

/-- Models PortfolioManager.show_portfolio of usecases.py: a read-only
valuation of the wallets in the base currency, failed conversions counted as
zero. -/
def show_portfolio (current_user : Option User) (base_currency : String)
    (ledger : Ledger) : OpResult :=
  match current_user with
  | none => .notLoggedIn
  | some user =>
    match ledger.find? (fun p => p.user_id == user.user_id) with
    | none => .okShown 0
    | some pd =>
      match Portfolio.from_dict pd with
      | .error e => .crashed e
      | .ok portfolio =>
        .okShown (portfolio.wallets.foldl
          (fun total kv =>
            if kv.1 = base_currency then total + kv.2.balance
            else
              match get_exchange_rate RECURSION_LIMIT kv.1 base_currency with
              | .ok rate => total + kv.2.balance * rate
              | .error _ => total + 0)
          0)

end PortfolioManager

/-! Basic lemmas about the dictionary model and the wallet operations. -/

theorem dictGet_mem {α : Type} {m : List (String × α)} {k : String} {v : α}
    (h : dictGet m k = some v) : (k, v) ∈ m := by
  induction m with
  | nil => simp [dictGet] at h
  | cons kv rest ih =>
      obtain ⟨k', v'⟩ := kv
      by_cases hk : k' = k
      · subst hk
        simp [dictGet] at h
        subst h
        exact List.mem_cons_self _ _
      · simp [dictGet, hk] at h
        exact List.mem_cons_of_mem _ (ih h)

theorem dictGet_map {α β : Type} (g : α → β) (m : List (String × α))
    (k : String) :
    dictGet (m.map (fun kv => (kv.1, g kv.2))) k = (dictGet m k).map g := by
  induction m with
  | nil => simp [dictGet]
  | cons kv rest ih =>
      by_cases hk : kv.1 = k
      · simp [dictGet, hk]
      · simp [dictGet, hk, ih]

theorem dictInsert_mem {α : Type} {m : List (String × α)} {k : String} {v : α}
    {kv : String × α} (h : kv ∈ dictInsert m k v) : kv ∈ m ∨ kv = (k, v) := by
  induction m with
  | nil => simp [dictInsert] at h; right; exact h
  | cons kv' rest ih =>
      by_cases hk : kv'.1 = k
      · obtain ⟨a, b⟩ := kv'
        simp only at hk
        subst hk
        simp [dictInsert] at h
        rcases h with h | h
        · right; simp [h]
        · left; exact List.mem_cons_of_mem _ h
      · obtain ⟨a, b⟩ := kv'
        simp only at hk
        simp [dictInsert, hk] at h
        rcases h with h | h
        · left; simp [h]
        · rcases ih h with h' | h'
          · left; exact List.mem_cons_of_mem _ h'
          · right; exact h'

theorem dictInsert_fresh {α : Type} {m : List (String × α)} {k : String}
    (v : α) (h : dictGet m k = none) : dictInsert m k v = m ++ [(k, v)] := by
  induction m with
  | nil => simp [dictInsert]
  | cons kv rest ih =>
      by_cases hk : kv.1 = k
      · simp [dictGet, hk] at h
      · simp only [dictGet, hk, if_false] at h
        obtain ⟨a, b⟩ := kv
        simp only at hk
        simp [dictInsert, hk, ih h]

theorem dictGet_append_right {α : Type} {m : List (String × α)} {k : String}
    (l : List (String × α)) (h : dictGet m k = none) :
    dictGet (m ++ l) k = dictGet l k := by
  induction m with
  | nil => simp
  | cons kv rest ih =>
      by_cases hk : kv.1 = k
      · simp [dictGet, hk] at h
      · simp only [dictGet, hk, if_false] at h
        obtain ⟨a, b⟩ := kv
        simp only at hk
        simp [dictGet, hk, ih h]

theorem dictGet_append_left {α : Type} {m : List (String × α)} {k : String}
    {v : α} (l : List (String × α)) (h : dictGet m k = some v) :
    dictGet (m ++ l) k = some v := by
  induction m with
  | nil => simp [dictGet] at h
  | cons kv rest ih =>
      by_cases hk : kv.1 = k
      · simp_all [dictGet]
      · obtain ⟨a, b⟩ := kv
        simp only at hk
        simp only [dictGet, hk, if_false] at h
        simp [dictGet, hk, ih h]

theorem dictGet_of_mem_nodup {α : Type} {m : List (String × α)}
    {k : String} {v : α} (hmem : (k, v) ∈ m)
    (hnodup : (m.map Prod.fst).Nodup) : dictGet m k = some v := by
  induction m with
  | nil => simp at hmem
  | cons kv rest ih =>
      obtain ⟨a, b⟩ := kv
      simp only [List.map_cons, List.nodup_cons] at hnodup
      rcases List.mem_cons.mp hmem with h | h
      · injection h with h1 h2
        subst h1
        subst h2
        simp [dictGet]
      · have hak : a ≠ k := by
          intro he
          subst he
          exact hnodup.1 (List.mem_map.mpr ⟨(a, v), h, rfl⟩)
        simp [dictGet, hak, ih h hnodup.2]

/-! Lemmas about wallet operations. -/

theorem setBalance_ok {w w' : Wallet} {v : ℚ}
    (h : w.setBalance v = .ok w') :
    w'.balance = v ∧ w'.currency = w.currency ∧ 0 ≤ v := by
  unfold Wallet.setBalance at h
  by_cases hv : v < 0
  · simp [hv] at h
  · simp [hv] at h
    subst h
    exact ⟨rfl, rfl, not_lt.mp hv⟩

theorem deposit_ok {w w' : Wallet} {a : ℚ} (h : w.deposit a = .ok w') :
    w'.balance = w.balance + a ∧ w'.currency = w.currency ∧ 0 < a ∧
      0 ≤ w'.balance := by
  unfold Wallet.deposit at h
  by_cases ha : a ≤ 0
  · simp [ha] at h
  · simp [ha] at h
    obtain ⟨h1, h2, h3⟩ := setBalance_ok h
    exact ⟨h1, h2, not_le.mp ha, h1 ▸ h3⟩

theorem withdraw_ok {w w' : Wallet} {a : ℚ} (h : w.withdraw a = .ok w') :
    w'.balance = w.balance - a ∧ w'.currency = w.currency ∧ 0 < a ∧
      a ≤ w.balance ∧ 0 ≤ w'.balance := by
  unfold Wallet.withdraw at h
  by_cases ha : a ≤ 0
  · simp [ha] at h
  · simp [ha] at h
    by_cases hb : a > w.balance
    · simp [hb] at h
    · simp [hb] at h
      obtain ⟨h1, h2, h3⟩ := setBalance_ok h
      exact ⟨h1, h2, not_le.mp ha, not_lt.mp hb, h1 ▸ h3⟩

theorem dictGet_eq_none_iff {α : Type} {m : List (String × α)} {k : String} :
    dictGet m k = none ↔ k ∉ m.map Prod.fst := by
  induction m with
  | nil => simp [dictGet]
  | cons kv rest ih =>
      by_cases hk : kv.1 = k
      · simp [dictGet, hk]
      · simp [dictGet, hk, ih, Ne.symm hk]

theorem registry_lookup {k : String} {c : Currency}
    (h : dictGet CURRENCY_REGISTRY k = some c) :
    c.code = k ∧ k ∈ ["USD", "EUR", "BTC", "ETH", "RUB"] := by
  simp only [CURRENCY_REGISTRY, dictGet] at h
  split_ifs at h with h1 h2 h3 h4 h5 <;> subst_vars <;>
    first
    | (injection h with h; subst h; exact ⟨rfl, by simp⟩)
    | simp at h

theorem mkWallet_ok {code : String} {bal : ℚ} {w : Wallet}
    (h : mkWallet code bal = .ok w) :
    dictGet CURRENCY_REGISTRY (pyUpper code) = some w.currency ∧
      w.balance = bal := by
  unfold mkWallet get_currency at h
  cases hreg : dictGet CURRENCY_REGISTRY (pyUpper code) with
  | none =>
      rw [hreg] at h
      have h' : (Except.error (VtError.currencyNotFound (pyUpper code)) :
          Except VtError Wallet) = .ok w := h
      simp at h'
  | some c =>
      rw [hreg] at h
      have h' : (Except.ok (⟨c, bal⟩ : Wallet) : Except VtError Wallet) =
          .ok w := h
      injection h' with h'
      subst h'
      exact ⟨rfl, rfl⟩

theorem mkWallet_err {code : String} (bal : ℚ)
    (h : dictGet CURRENCY_REGISTRY (pyUpper code) = none) :
    mkWallet code bal = .error (.currencyNotFound (pyUpper code)) := by
  unfold mkWallet get_currency
  rw [h]
  rfl

theorem mkWallet_error_shape {code : String} {bal : ℚ} {e : VtError}
    (h : mkWallet code bal = .error e) :
    e = .currencyNotFound (pyUpper code) := by
  unfold mkWallet get_currency at h
  cases hreg : dictGet CURRENCY_REGISTRY (pyUpper code) with
  | none =>
      rw [hreg] at h
      have h' : (Except.error (VtError.currencyNotFound (pyUpper code)) :
          Except VtError Wallet) = .error e := h
      injection h' with h'
      exact h'.symm
  | some c =>
      rw [hreg] at h
      have h' : (Except.ok (⟨c, bal⟩ : Wallet) : Except VtError Wallet) =
          .error e := h
      simp at h'

/-! Lemmas about the Portfolio.from_dict loop. -/

theorem fromDictStep_ok {acc : List (String × Wallet)} {kv : String × WalletDict}
    {w : Wallet} (hw : Wallet.from_dict kv.2 = .ok w) :
    fromDictStep acc kv = .ok (dictInsert acc kv.1 w) := by
  unfold fromDictStep
  rw [hw]
  rfl

theorem fromDictStep_err {acc : List (String × Wallet)} {kv : String × WalletDict}
    {e : VtError} (hw : Wallet.from_dict kv.2 = .error e) :
    fromDictStep acc kv = .error e := by
  unfold fromDictStep
  rw [hw]
  rfl

theorem foldlM_fromDictStep_prop (P : Wallet → Prop) :
    ∀ (l : List (String × WalletDict)) (acc ws : List (String × Wallet)),
      (∀ kv ∈ l, ∀ w, Wallet.from_dict kv.2 = .ok w → P w) →
      (∀ kv ∈ acc, P kv.2) →
      List.foldlM fromDictStep acc l = .ok ws →
      ∀ kv ∈ ws, P kv.2 := by
  intro l
  induction l with
  | nil =>
      intro acc ws _ hacc hfold
      have h' : (Except.ok acc : Except VtError _) = .ok ws := hfold
      injection h' with h'
      subst h'
      exact hacc
  | cons kv rest ih =>
      intro acc ws hl hacc hfold
      rw [List.foldlM_cons] at hfold
      cases hw : Wallet.from_dict kv.2 with
      | error e =>
          rw [fromDictStep_err hw] at hfold
          have h' : (Except.error e : Except VtError _) = .ok ws := hfold
          simp at h'
      | ok w =>
          rw [fromDictStep_ok hw] at hfold
          have hfold' :
              List.foldlM fromDictStep (dictInsert acc kv.1 w) rest = .ok ws :=
            hfold
          refine ih (dictInsert acc kv.1 w) ws
            (fun kv' h' w' hw' => hl kv' (List.mem_cons_of_mem _ h') w' hw')
            ?_ hfold'
          intro kv' hkv'
          rcases dictInsert_mem hkv' with h' | h'
          · exact hacc kv' h'
          · subst h'
            exact hl kv (List.mem_cons_self _ _) w hw

theorem foldlM_fromDictStep_err :
    ∀ (l : List (String × WalletDict)) (acc : List (String × Wallet)),
      (∃ kv ∈ l, dictGet CURRENCY_REGISTRY (pyUpper kv.2.currency_code) = none) →
      ∃ s, List.foldlM fromDictStep acc l = .error (.currencyNotFound s) := by
  intro l
  induction l with
  | nil => intro acc h; simp at h
  | cons kv rest ih =>
      intro acc h
      rw [List.foldlM_cons]
      cases hw : Wallet.from_dict kv.2 with
      | error e =>
          have he := mkWallet_error_shape hw
          subst he
          rw [fromDictStep_err hw]
          exact ⟨pyUpper kv.2.currency_code, rfl⟩
      | ok w =>
          rw [fromDictStep_ok hw]
          rcases h with ⟨kv', hmem, hbad⟩
          rcases List.mem_cons.mp hmem with h' | h'
          · subst h'
            rw [Wallet.from_dict, mkWallet_err _ hbad] at hw
            simp at hw
          · have := ih (dictInsert acc kv.1 w) ⟨kv', h', hbad⟩
            rcases this with ⟨s, hs⟩
            refine ⟨s, ?_⟩
            have : (do
                let init ← (Except.ok (dictInsert acc kv.1 w) :
                  Except VtError _)
                List.foldlM fromDictStep init rest) =
                List.foldlM fromDictStep (dictInsert acc kv.1 w) rest := rfl
            rw [this, hs]

theorem from_dict_prop (P : Wallet → Prop) {pd : PortfolioDict} {p : Portfolio}
    (hfold : Portfolio.from_dict pd = .ok p)
    (hl : ∀ kv ∈ pd.wallets, ∀ w, Wallet.from_dict kv.2 = .ok w → P w) :
    ∀ kv ∈ p.wallets, P kv.2 := by
  unfold Portfolio.from_dict at hfold
  cases hws : List.foldlM fromDictStep [] pd.wallets with
  | error e =>
      rw [hws] at hfold
      have h' : (Except.error e : Except VtError Portfolio) = .ok p := hfold
      simp at h'
  | ok ws =>
      rw [hws] at hfold
      have h' : (Except.ok (⟨pd.user_id, ws⟩ : Portfolio) :
          Except VtError Portfolio) = .ok p := hfold
      injection h' with h'
      have hmem := foldlM_fromDictStep_prop P pd.wallets [] ws hl (by simp) hws
      intro kv hkv
      exact hmem kv (by rw [← h'] at hkv; exact hkv)

theorem pyUpper_mem_five {s : String}
    (h : s ∈ ["USD", "EUR", "BTC", "ETH", "RUB"]) : pyUpper s = s := by
  simp only [List.mem_cons, List.mem_singleton, List.not_mem_nil] at h
  rcases h with h | h | h | h | h | h <;> first | (subst h; rfl) | simp at h

theorem mkWallet_code_five {code : String} {bal : ℚ} {w : Wallet}
    (h : mkWallet code bal = .ok w) :
    w.currency_code ∈ ["USD", "EUR", "BTC", "ETH", "RUB"] := by
  obtain ⟨hreg, _⟩ := mkWallet_ok h
  obtain ⟨hcode, hmem⟩ := registry_lookup hreg
  unfold Wallet.currency_code
  rw [hcode]
  exact hmem

theorem roundtrip_fold :
    ∀ (l acc : List (String × Wallet)),
      (∀ kv ∈ l, dictGet CURRENCY_REGISTRY (pyUpper kv.2.currency.code) =
        some kv.2.currency) →
      (∀ k ∈ l.map Prod.fst, dictGet acc k = none) →
      (l.map Prod.fst).Nodup →
      List.foldlM fromDictStep acc
        (l.map (fun kv => (kv.1, kv.2.to_dict))) = .ok (acc ++ l) := by
  intro l
  induction l with
  | nil => intro acc _ _ _; simp; rfl
  | cons kv rest ih =>
      intro acc hcanon hacc hnodup
      obtain ⟨k, w⟩ := kv
      simp only [List.map_cons, List.foldlM_cons]
      have hw : Wallet.from_dict (k, w.to_dict).2 = .ok w := by
        show mkWallet w.currency.code w.balance = .ok w
        unfold mkWallet get_currency
        rw [hcanon (k, w) (List.mem_cons_self _ _)]
        rfl
      rw [fromDictStep_ok hw]
      have hfresh : dictGet acc k = none :=
        hacc k (by simp)
      have hstep :
          (do
            let init ← (Except.ok (dictInsert acc k w) : Except VtError _)
            List.foldlM fromDictStep init (rest.map (fun kv => (kv.1, kv.2.to_dict)))) =
          List.foldlM fromDictStep (dictInsert acc k w)
            (rest.map (fun kv => (kv.1, kv.2.to_dict))) := rfl
      rw [hstep, dictInsert_fresh w hfresh]
      simp only [List.map_cons, List.nodup_cons] at hnodup
      have hih := ih (acc ++ [(k, w)])
        (fun kv' h' => hcanon kv' (List.mem_cons_of_mem _ h'))
        (fun k' hk' => by
          rw [dictGet_append_right _ (hacc k' (List.mem_cons_of_mem _ hk'))]
          have hkk : k ≠ k' := by
            intro he
            subst he
            exact hnodup.1 hk'
          simp [dictGet, hkk])
        hnodup.2
      rw [hih]
      simp

/-- C10: constructing a Wallet validates its currency code against the fixed
five-entry registry; every code outside the catalog makes Wallet creation
(directly or through Portfolio.from_dict) fail with the unknown-currency
error, and every wallet that is created carries a registered, upper-case
currency code. -/
theorem C10_wallet_validation :
    (CURRENCY_REGISTRY.map Prod.fst = ["USD", "EUR", "BTC", "ETH", "RUB"]) ∧
    (∀ code : String, ∀ bal : ℚ,
      dictGet CURRENCY_REGISTRY (pyUpper code) = none →
      mkWallet code bal = .error (.currencyNotFound (pyUpper code))) ∧
    (∀ pd : PortfolioDict,
      (∃ kv ∈ pd.wallets,
        dictGet CURRENCY_REGISTRY (pyUpper kv.2.currency_code) = none) →
      ∃ s, Portfolio.from_dict pd = .error (.currencyNotFound s)) ∧
    (∀ code : String, ∀ bal : ℚ, ∀ w : Wallet, mkWallet code bal = .ok w →
      w.currency_code ∈ ["USD", "EUR", "BTC", "ETH", "RUB"] ∧
      pyUpper w.currency_code = w.currency_code) ∧
    (∀ pd : PortfolioDict, ∀ p : Portfolio, Portfolio.from_dict pd = .ok p →
      ∀ kv ∈ p.wallets,
        kv.2.currency_code ∈ ["USD", "EUR", "BTC", "ETH", "RUB"] ∧
        pyUpper kv.2.currency_code = kv.2.currency_code) := by
  refine ⟨rfl, ?_, ?_, ?_, ?_⟩
  · intro code bal h
    exact mkWallet_err bal h
  · intro pd h
    obtain ⟨s, hs⟩ := foldlM_fromDictStep_err pd.wallets [] h
    refine ⟨s, ?_⟩
    unfold Portfolio.from_dict
    rw [hs]
    rfl
  · intro code bal w h
    have hmem := mkWallet_code_five h
    exact ⟨hmem, pyUpper_mem_five hmem⟩
  · intro pd p hfold
    exact from_dict_prop
      (fun w => w.currency_code ∈ ["USD", "EUR", "BTC", "ETH", "RUB"] ∧
        pyUpper w.currency_code = w.currency_code)
      hfold
      (fun kv _ w hw => by
        have hmem := mkWallet_code_five hw
        exact ⟨hmem, pyUpper_mem_five hmem⟩)

/-- Witness for C10 at concrete inputs: the unregistered code XYZ is rejected
by the wallet constructor and by portfolio deserialization, while a
lower-case registered code yields a wallet with the canonical code. -/
theorem C10_wallet_validation_witness :
    (dictGet CURRENCY_REGISTRY (pyUpper "XYZ") = none ∧
      mkWallet "XYZ" 5 = .error (.currencyNotFound (pyUpper "XYZ"))) ∧
    ((∃ kv ∈ ([("XYZ", (⟨"XYZ", 3⟩ : WalletDict))] :
        List (String × WalletDict)),
      dictGet CURRENCY_REGISTRY (pyUpper kv.2.currency_code) = none) ∧
      (∃ s, Portfolio.from_dict ⟨7, [("XYZ", ⟨"XYZ", 3⟩)]⟩ =
        .error (.currencyNotFound s))) ∧
    (mkWallet "usd" 3 =
      .ok ⟨⟨"US Dollar", "USD", .fiat "United States"⟩, 3⟩ ∧
      (Wallet.currency_code ⟨⟨"US Dollar", "USD", .fiat "United States"⟩, 3⟩ ∈
          ["USD", "EUR", "BTC", "ETH", "RUB"] ∧
        pyUpper (Wallet.currency_code
          ⟨⟨"US Dollar", "USD", .fiat "United States"⟩, 3⟩) =
          Wallet.currency_code ⟨⟨"US Dollar", "USD", .fiat "United States"⟩, 3⟩)) := by
  refine ⟨⟨rfl, C10_wallet_validation.2.1 "XYZ" 5 rfl⟩,
    ⟨⟨("XYZ", ⟨"XYZ", 3⟩), by simp, rfl⟩,
      C10_wallet_validation.2.2.1 ⟨7, [("XYZ", ⟨"XYZ", 3⟩)]⟩
        ⟨("XYZ", ⟨"XYZ", 3⟩), by simp, rfl⟩⟩,
    rfl,
    C10_wallet_validation.2.2.2.1 "usd" 3 _ rfl⟩

/-- C8: serializing a portfolio with Portfolio.to_dict and deserializing the
result with Portfolio.from_dict (the persistence round trip) returns the
portfolio unchanged: same user id, same currency-code keys mapped to the
same wallets and balances.  The hypotheses say that each wallet stores the
registry entry for its own code (true of every wallet the validating
constructor produces, by C10) and that the wallet keys are distinct (true of
every Python dict). -/
theorem C8_roundtrip (p : Portfolio)
    (hcanon : ∀ kv ∈ p.wallets,
      dictGet CURRENCY_REGISTRY (pyUpper kv.2.currency.code) =
        some kv.2.currency)
    (hnodup : (p.wallets.map Prod.fst).Nodup) :
    Portfolio.from_dict p.to_dict = .ok p := by
  unfold Portfolio.from_dict Portfolio.to_dict
  have h := roundtrip_fold p.wallets [] hcanon (by simp [dictGet]) hnodup
  simp only []
  rw [h]
  rfl

/-- Witness for C8 on a concrete two-wallet portfolio. -/
theorem C8_roundtrip_witness :
    (∀ kv ∈ ([("USD", ⟨⟨"US Dollar", "USD", .fiat "United States"⟩, 100⟩),
        ("BTC", ⟨⟨"Bitcoin", "BTC", .crypto "SHA-256"⟩, 1/2⟩)] :
          List (String × Wallet)),
      dictGet CURRENCY_REGISTRY (pyUpper kv.2.currency.code) =
        some kv.2.currency) ∧
    ((([("USD", (⟨⟨"US Dollar", "USD", .fiat "United States"⟩, 100⟩ : Wallet)),
        ("BTC", ⟨⟨"Bitcoin", "BTC", .crypto "SHA-256"⟩, 1/2⟩)] :
          List (String × Wallet)).map Prod.fst).Nodup) ∧
    Portfolio.from_dict
      (Portfolio.to_dict
        ⟨9, [("USD", ⟨⟨"US Dollar", "USD", .fiat "United States"⟩, 100⟩),
             ("BTC", ⟨⟨"Bitcoin", "BTC", .crypto "SHA-256"⟩, 1/2⟩)]⟩) =
      .ok ⟨9, [("USD", ⟨⟨"US Dollar", "USD", .fiat "United States"⟩, 100⟩),
               ("BTC", ⟨⟨"Bitcoin", "BTC", .crypto "SHA-256"⟩, 1/2⟩)]⟩ := by
  refine ⟨?_, ?_, ?_⟩
  · intro kv hkv
    rcases List.mem_cons.mp hkv with h | h
    · subst h; rfl
    · rcases List.mem_cons.mp h with h' | h'
      · subst h'; rfl
      · simp at h'
  · simp
  · exact C8_roundtrip _
      (by
        intro kv hkv
        rcases List.mem_cons.mp hkv with h | h
        · subst h; rfl
        · rcases List.mem_cons.mp h with h' | h'
          · subst h'; rfl
          · simp at h')
      (by simp)

/-! Lemmas about the rate oracle. -/

theorem ger_from_usd (f : String) :
    ∀ m : Nat, 1 ≤ m →
      get_exchange_rate m f "USD" =
        if pyUpper f = "USD" then .ok 1
        else
          match dictGet ratesTable (pyUpper f ++ "_" ++ "USD") with
          | some r => .ok r
          | none => .error (.valueError "rate not found") := by
  intro m
  induction m with
  | zero => intro hm; exact absurd hm (by simp)
  | succ n ih =>
      intro _
      rw [get_exchange_rate]
      have hu : pyUpper "USD" = "USD" := rfl
      simp only [hu]
      by_cases hf : pyUpper f = "USD"
      · simp [hf]
      · simp only [hf, if_false]
        cases hd : dictGet ratesTable (pyUpper f ++ "_" ++ "USD") with
        | some r => simp [hd]
        | none =>
            simp only [hd]
            rcases Nat.eq_zero_or_pos n with hn | hn
            · subst hn
              simp [get_exchange_rate]
            · rw [ih hn]
              simp [hf, hd]

theorem ger_usd_to (t : String) :
    ∀ m : Nat, 1 ≤ m →
      get_exchange_rate m "USD" t =
        if "USD" = pyUpper t then .ok 1
        else
          match dictGet ratesTable ("USD" ++ "_" ++ pyUpper t) with
          | some r => .ok r
          | none => .error (.valueError "rate not found") := by
  intro m
  induction m with
  | zero => intro hm; exact absurd hm (by simp)
  | succ n ih =>
      intro _
      rw [get_exchange_rate]
      have hu : pyUpper "USD" = "USD" := rfl
      simp only [hu]
      by_cases ht : "USD" = pyUpper t
      · simp [ht]
      · simp only [ht, if_false]
        cases hd : dictGet ratesTable ("USD" ++ "_" ++ pyUpper t) with
        | some r => simp [hd]
        | none =>
            simp only [hd]
            rcases Nat.eq_zero_or_pos n with hn | hn
            · subst hn
              simp [get_exchange_rate]
            · have husd : get_exchange_rate n "USD" "USD" = .ok 1 := by
                cases n with
                | zero => exact absurd hn (by simp)
                | succ k =>
                    rw [get_exchange_rate]
                    simp
              rw [husd, ih hn]
              have happ : ("USD" : String) ++ "_" ++ pyUpper t =
                  "USD_" ++ pyUpper t := by
                rw [show ("USD" : String) ++ "_" = "USD_" from rfl]
              rw [happ] at hd
              simp [ht, hd]

/-- C5: for every pair of currency-code strings and every fuel of at least 2
(the interpreter recursion limit is 1000), the rate oracle returns 1 on equal
upper-cased codes, the table entry on a direct hit, the product of the two
reference-currency legs when only a transitive path exists, and otherwise
fails with the ValueError that models RateUnavailable; in every case it
returns, it never escapes with the recursion-limit error. -/
theorem C5_rate_oracle_total :
    ∀ fuel : Nat, 2 ≤ fuel → ∀ f t : String,
      (pyUpper f = pyUpper t → get_exchange_rate fuel f t = .ok 1) ∧
      (∀ r : ℚ, pyUpper f ≠ pyUpper t →
        dictGet ratesTable (pyUpper f ++ "_" ++ pyUpper t) = some r →
        get_exchange_rate fuel f t = .ok r) ∧
      (∀ r1 r2 : ℚ, pyUpper f ≠ pyUpper t →
        dictGet ratesTable (pyUpper f ++ "_" ++ pyUpper t) = none →
        get_exchange_rate 1 f "USD" = .ok r1 →
        get_exchange_rate 1 "USD" t = .ok r2 →
        get_exchange_rate fuel f t = .ok (r1 * r2)) ∧
      (pyUpper f ≠ pyUpper t →
        dictGet ratesTable (pyUpper f ++ "_" ++ pyUpper t) = none →
        ((∃ e, get_exchange_rate 1 f "USD" = .error e) ∨
          (∃ e, get_exchange_rate 1 "USD" t = .error e)) →
        get_exchange_rate fuel f t = .error (.valueError "rate not found")) ∧
      ((∃ r : ℚ, get_exchange_rate fuel f t = .ok r) ∨
        get_exchange_rate fuel f t = .error (.valueError "rate not found")) := by
  intro fuel hfuel f t
  cases fuel with
  | zero => exact absurd hfuel (by simp)
  | succ n =>
      have hn : 1 ≤ n := by omega
      refine ⟨?_, ?_, ?_, ?_, ?_⟩
      · intro hft
        rw [get_exchange_rate]
        simp [hft]
      · intro r hft hd
        rw [get_exchange_rate]
        simp [hft, hd]
      · intro r1 r2 hft hd h1 h2
        rw [get_exchange_rate]
        simp only [hft, if_false, hd]
        rw [ger_from_usd f n hn, ← ger_from_usd f 1 (by norm_num), h1,
            ger_usd_to t n hn, ← ger_usd_to t 1 (by norm_num), h2]
      · intro hft hd herr
        rw [get_exchange_rate]
        simp only [hft, if_false, hd]
        rw [ger_from_usd f n hn, ← ger_from_usd f 1 (by norm_num),
            ger_usd_to t n hn, ← ger_usd_to t 1 (by norm_num)]
        rcases herr with ⟨e, he⟩ | ⟨e, he⟩
        · rw [he]
        · cases h1 : get_exchange_rate 1 f "USD" with
          | error e1 => rfl
          | ok r1 => rw [he]
      · by_cases hft : pyUpper f = pyUpper t
        · left
          refine ⟨1, ?_⟩
          rw [get_exchange_rate]
          simp [hft]
        · cases hd : dictGet ratesTable (pyUpper f ++ "_" ++ pyUpper t) with
          | some r =>
              left
              refine ⟨r, ?_⟩
              rw [get_exchange_rate]
              simp [hft, hd]
          | none =>
              rw [get_exchange_rate]
              simp only [hft, if_false, hd]
              rw [ger_from_usd f n hn, ← ger_from_usd f 1 (by norm_num),
                  ger_usd_to t n hn, ← ger_usd_to t 1 (by norm_num)]
              cases h1 : get_exchange_rate 1 f "USD" with
              | error e1 => right; rfl
              | ok r1 =>
                  cases h2 : get_exchange_rate 1 "USD" t with
                  | error e2 => right; rfl
                  | ok r2 => left; exact ⟨r1 * r2, rfl⟩

/-- Witness for C5 at fuel 2: identity on lower-case btc versus BTC, the
direct USD to EUR entry, the transitive BTC to ETH product, and the failing
XYZ to USD lookup. -/
theorem C5_rate_oracle_total_witness :
    (pyUpper "btc" = pyUpper "BTC" ∧
      get_exchange_rate 2 "btc" "BTC" = .ok 1) ∧
    (pyUpper "USD" ≠ pyUpper "EUR" ∧
      dictGet ratesTable (pyUpper "USD" ++ "_" ++ pyUpper "EUR") =
        some (92/100) ∧
      get_exchange_rate 2 "USD" "EUR" = .ok (92/100)) ∧
    (pyUpper "BTC" ≠ pyUpper "ETH" ∧
      dictGet ratesTable (pyUpper "BTC" ++ "_" ++ pyUpper "ETH") = none ∧
      get_exchange_rate 1 "BTC" "USD" = .ok (5933721/100) ∧
      get_exchange_rate 1 "USD" "ETH" = .ok (27/100000) ∧
      get_exchange_rate 2 "BTC" "ETH" = .ok ((5933721/100) * (27/100000))) ∧
    (pyUpper "XYZ" ≠ pyUpper "USD" ∧
      dictGet ratesTable (pyUpper "XYZ" ++ "_" ++ pyUpper "USD") = none ∧
      (∃ e, get_exchange_rate 1 "XYZ" "USD" = .error e) ∧
      get_exchange_rate 2 "XYZ" "USD" =
        .error (.valueError "rate not found")) := by
  have h2 : (2 : Nat) ≤ 2 := by norm_num
  refine ⟨⟨rfl, (C5_rate_oracle_total 2 h2 "btc" "BTC").1 rfl⟩,
    ⟨?_, rfl, (C5_rate_oracle_total 2 h2 "USD" "EUR").2.1 (92/100) ?_ rfl⟩,
    ⟨?_, rfl, rfl, rfl,
      (C5_rate_oracle_total 2 h2 "BTC" "ETH").2.2.1 (5933721/100) (27/100000)
        ?_ rfl rfl rfl⟩,
    ⟨?_, rfl, ⟨.valueError "rate not found", rfl⟩,
      (C5_rate_oracle_total 2 h2 "XYZ" "USD").2.2.2.1 ?_ rfl
        (Or.inl ⟨.valueError "rate not found", rfl⟩)⟩⟩ <;>
    · intro h
      exact absurd h (by decide)

/-- A fixed session user for the concrete counterexamples and witnesses. -/
def demoUser : User := ⟨1, "alice", "hash", "salt"⟩

/-- Counterexample to C6 as stated: with an authenticated user, a currency
code outside the registry and a non-positive amount, buy fails with the
unknown-currency message, not with the invalid-amount message (the currency
check runs first), so the claim quantified over every currency code is
false. -/
theorem C6_counterexample :
    PortfolioManager.buy (some demoUser) "XYZ" (-1) [] =
      (.unknownCurrency, []) ∧
    PortfolioManager.sell (some demoUser) "XYZ" (-1) [] =
      (.unknownCurrency, []) ∧
    OpResult.unknownCurrency ≠ OpResult.invalidAmount := by
  refine ⟨?_, ?_, by simp⟩ <;> with_unfolding_all rfl

/-- C6 (amended): for an authenticated user and a currency code that
resolves in the registry, buy, sell and deposit with a non-positive amount
fail with the invalid-amount message and return the ledger unchanged;
deposit does so for every code, registered or not, because it checks the
amount before the currency. -/
theorem C6_amended (user : User) (code : String) (amount : ℚ)
    (ledger : Ledger) (c : Currency)
    (hcode : get_currency code = .ok c) (hamount : amount ≤ 0) :
    PortfolioManager.buy (some user) code amount ledger =
      (.invalidAmount, ledger) ∧
    PortfolioManager.sell (some user) code amount ledger =
      (.invalidAmount, ledger) ∧
    PortfolioManager.deposit (some user) code amount ledger =
      (.invalidAmount, ledger) ∧
    (∀ anyCode : String,
      PortfolioManager.deposit (some user) anyCode amount ledger =
        (.invalidAmount, ledger)) := by
  refine ⟨?_, ?_, ?_, ?_⟩
  · unfold PortfolioManager.buy
    rw [hcode]
    simp [hamount]
  · unfold PortfolioManager.sell
    rw [hcode]
    simp [hamount]
  · unfold PortfolioManager.deposit
    simp [hamount]
  · intro anyCode
    unfold PortfolioManager.deposit
    simp [hamount]

/-- Witness for the amended C6 at a concrete input. -/
theorem C6_amended_witness :
    (get_currency "USD" =
      .ok ⟨"US Dollar", "USD", .fiat "United States"⟩ ∧ (-5 : ℚ) ≤ 0) ∧
    (PortfolioManager.buy (some demoUser) "USD" (-5) [] =
      (.invalidAmount, []) ∧
    PortfolioManager.sell (some demoUser) "USD" (-5) [] =
      (.invalidAmount, []) ∧
    PortfolioManager.deposit (some demoUser) "USD" (-5) [] =
      (.invalidAmount, []) ∧
    PortfolioManager.deposit (some demoUser) "XYZ" (-5) [] =
      (.invalidAmount, [])) := by
  have hle : (-5 : ℚ) ≤ 0 := by with_unfolding_all decide
  have h := C6_amended demoUser "USD" (-5) []
    ⟨"US Dollar", "USD", .fiat "United States"⟩ rfl hle
  exact ⟨⟨rfl, hle⟩, h.1, h.2.1, h.2.2.1, h.2.2.2 "XYZ"⟩

/-- Counterexample to C9 as stated: with no authenticated user, get_rate
succeeds and returns the USD to EUR quote instead of failing with the
not-authenticated result; the method never consults the session. -/
theorem C9_counterexample :
    PortfolioManager.get_rate none "USD" "EUR" =
      .okRate (92/100) (100/92) ∧
    PortfolioManager.get_rate none "USD" "EUR" ≠ .notLoggedIn := by
  constructor
  · with_unfolding_all rfl
  · intro h
    rw [show PortfolioManager.get_rate none "USD" "EUR" =
        .okRate (92/100) (100/92) from by with_unfolding_all rfl] at h
    simp at h

/-- C9 (amended): deposit, buy, sell and show_portfolio fail with the
not-authenticated result and leave the ledger unchanged when no user is
logged in; get_rate performs no authentication check at all: its result is
the same with and without a session user (and it never touches the
ledger). -/
theorem C9_amended :
    ∀ (code base f t : String) (amount : ℚ) (ledger : Ledger) (u : User),
      PortfolioManager.buy none code amount ledger = (.notLoggedIn, ledger) ∧
      PortfolioManager.sell none code amount ledger = (.notLoggedIn, ledger) ∧
      PortfolioManager.deposit none code amount ledger =
        (.notLoggedIn, ledger) ∧
      PortfolioManager.show_portfolio none base ledger = .notLoggedIn ∧
      PortfolioManager.get_rate none f t = PortfolioManager.get_rate (some u) f t := by
  intro code base f t amount ledger u
  exact ⟨rfl, rfl, rfl, rfl, rfl⟩

theorem buy_cases (cu : Option User) (code : String) (amount : ℚ)
    (ledger : Ledger) :
    (PortfolioManager.buy cu code amount ledger).1 = .ok ∨
    (PortfolioManager.buy cu code amount ledger).2 = ledger := by
  unfold PortfolioManager.buy
  repeat' split
  all_goals first | (left; rfl) | (right; rfl)

theorem sell_cases (cu : Option User) (code : String) (amount : ℚ)
    (ledger : Ledger) :
    (PortfolioManager.sell cu code amount ledger).1 = .ok ∨
    (PortfolioManager.sell cu code amount ledger).2 = ledger := by
  unfold PortfolioManager.sell
  repeat' split
  all_goals first | (left; rfl) | (right; rfl)

theorem deposit_cases (cu : Option User) (code : String) (amount : ℚ)
    (ledger : Ledger) :
    (PortfolioManager.deposit cu code amount ledger).1 = .ok ∨
    (PortfolioManager.deposit cu code amount ledger).2 = ledger := by
  unfold PortfolioManager.deposit
  repeat' split
  all_goals first | (left; rfl) | (right; rfl)

/-- C7: whenever buy, sell or deposit returns anything other than the success
result, the ledger value it returns is exactly the ledger it was given: every
validation and balance check precedes the save, so durable state is
untouched on every failure path. -/
theorem C7_failure_leaves_ledger (cu : Option User) (code : String)
    (amount : ℚ) (ledger : Ledger) :
    ((PortfolioManager.buy cu code amount ledger).1 ≠ .ok →
      (PortfolioManager.buy cu code amount ledger).2 = ledger) ∧
    ((PortfolioManager.sell cu code amount ledger).1 ≠ .ok →
      (PortfolioManager.sell cu code amount ledger).2 = ledger) ∧
    ((PortfolioManager.deposit cu code amount ledger).1 ≠ .ok →
      (PortfolioManager.deposit cu code amount ledger).2 = ledger) := by
  refine ⟨?_, ?_, ?_⟩ <;> intro h
  · rcases buy_cases cu code amount ledger with h' | h'
    · exact absurd h' h
    · exact h'
  · rcases sell_cases cu code amount ledger with h' | h'
    · exact absurd h' h
    · exact h'
  · rcases deposit_cases cu code amount ledger with h' | h'
    · exact absurd h' h
    · exact h'

/-- Witness for C7: failing calls at concrete inputs return the input ledger
unchanged. -/
theorem C7_failure_leaves_ledger_witness :
    ((PortfolioManager.buy (some demoUser) "BTC" 1
        [⟨1, [("USD", ⟨"USD", 0⟩)]⟩]).1 ≠ .ok ∧
      (PortfolioManager.buy (some demoUser) "BTC" 1
        [⟨1, [("USD", ⟨"USD", 0⟩)]⟩]).2 = [⟨1, [("USD", ⟨"USD", 0⟩)]⟩]) ∧
    ((PortfolioManager.sell (some demoUser) "BTC" 1 []).1 ≠ .ok ∧
      (PortfolioManager.sell (some demoUser) "BTC" 1 []).2 = []) ∧
    ((PortfolioManager.deposit none "USD" 5 []).1 ≠ .ok ∧
      (PortfolioManager.deposit none "USD" 5 []).2 = []) := by
  have h1 : (PortfolioManager.buy (some demoUser) "BTC" 1
      [⟨1, [("USD", ⟨"USD", 0⟩)]⟩]).1 = .noFundingSource := by
    with_unfolding_all rfl
  have h2 : (PortfolioManager.sell (some demoUser) "BTC" 1 []).1 =
      .noPortfolio := by
    with_unfolding_all rfl
  have h3 : (PortfolioManager.deposit none "USD" 5 []).1 = .notLoggedIn := rfl
  refine ⟨⟨?_, ?_⟩, ⟨?_, ?_⟩, ⟨?_, ?_⟩⟩
  · rw [h1]; simp
  · exact (C7_failure_leaves_ledger (some demoUser) "BTC" 1
      [⟨1, [("USD", ⟨"USD", 0⟩)]⟩]).1 (by rw [h1]; simp)
  · rw [h2]; simp
  · exact (C7_failure_leaves_ledger (some demoUser) "BTC" 1 []).2.1
      (by rw [h2]; simp)
  · rw [h3]; simp
  · exact (C7_failure_leaves_ledger none "USD" 5 []).2.2 (by rw [h3]; simp)

/-! Lemmas for the funding-selection policy of buy. -/

theorem head?_filterMap {α β : Type} (f : α → Option β) :
    ∀ (l : List α) (b : β), (l.filterMap f).head? = some b →
      ∃ pre x suf, l = pre ++ x :: suf ∧ f x = some b ∧
        ∀ y ∈ pre, f y = none := by
  intro l
  induction l with
  | nil => intro b h; simp at h
  | cons a rest ih =>
      intro b h
      cases hf : f a with
      | some b' =>
          rw [List.filterMap_cons_some hf] at h
          simp only [List.head?_cons, Option.some.injEq] at h
          subst h
          exact ⟨[], a, rest, by simp, hf, by simp⟩
      | none =>
          rw [List.filterMap_cons_none hf] at h
          obtain ⟨pre, x, suf, he, hx, hpre⟩ := ih b h
          refine ⟨a :: pre, x, suf, by simp [he], hx, ?_⟩
          intro y hy
          rcases List.mem_cons.mp hy with h' | h'
          · subst h'; exact hf
          · exact hpre y h'

theorem get_wallet_canon {p : Portfolio} {kv : String × Wallet}
    (hcanon : ∀ kv ∈ p.wallets, pyUpper kv.1 = kv.1)
    (hnodup : (p.wallets.map Prod.fst).Nodup)
    (hmem : kv ∈ p.wallets) : p.get_wallet kv.1 = some kv.2 := by
  unfold Portfolio.get_wallet
  rw [hcanon kv hmem]
  exact dictGet_of_mem_nodup hmem hnodup

/-- C3: the funding wallet of buy is the first wallet in the portfolio's
iteration order whose upper-cased currency differs from the target and whose
balance is strictly positive; when no wallet qualifies (in particular when
every wallet has zero balance) the selection is empty and buy fails with the
no-funding-source result, returning the ledger unchanged.  The canonicity
hypotheses (upper-case keys, distinct keys) hold in every portfolio the
program itself builds. -/
theorem C3_funding_selection :
    (∀ (p : Portfolio) (code k : String),
      (∀ kv ∈ p.wallets, pyUpper kv.1 = kv.1) →
      (p.wallets.map Prod.fst).Nodup →
      (PortfolioManager.availablePaymentCurrencies p code).head? = some k →
      ∃ pre w suf, p.wallets = pre ++ (k, w) :: suf ∧
        pyUpper k ≠ pyUpper code ∧ 0 < w.balance ∧
        ∀ kv ∈ pre, ¬(pyUpper kv.1 ≠ pyUpper code ∧ 0 < kv.2.balance)) ∧
    (∀ (p : Portfolio) (code : String),
      (∀ kv ∈ p.wallets, pyUpper kv.1 = kv.1) →
      (p.wallets.map Prod.fst).Nodup →
      (PortfolioManager.availablePaymentCurrencies p code).head? = none →
      ∀ kv ∈ p.wallets, ¬(pyUpper kv.1 ≠ pyUpper code ∧ 0 < kv.2.balance)) ∧
    (∀ (p : Portfolio) (code : String),
      (∀ kv ∈ p.wallets, kv.2.balance = 0) →
      PortfolioManager.availablePaymentCurrencies p code = []) ∧
    (∀ (user : User) (code : String) (amount : ℚ) (ledger : Ledger)
        (c : Currency) (portfolio : Portfolio),
      get_currency code = .ok c → 0 < amount →
      PortfolioManager.loadOrCreate ledger user.user_id = .ok portfolio →
      (PortfolioManager.availablePaymentCurrencies portfolio code).head? =
        none →
      PortfolioManager.buy (some user) code amount ledger =
        (.noFundingSource, ledger)) := by
  refine ⟨?_, ?_, ?_, ?_⟩
  · intro p code k hcanon hnodup h
    obtain ⟨pre, x, suf, he, hx, hpre⟩ :=
      head?_filterMap _ p.wallets k h
    have hxmem : x ∈ p.wallets := he ▸ (by simp)
    have hw := get_wallet_canon hcanon hnodup hxmem
    rw [hw] at hx
    by_cases hne : pyUpper x.1 ≠ pyUpper code
    · rw [if_pos hne] at hx
      have hx2 : (if 0 < x.2.balance then some x.1 else none) = some k := hx
      by_cases hpos : 0 < x.2.balance
      · rw [if_pos hpos] at hx2
        injection hx2 with hx2
        subst hx2
        refine ⟨pre, x.2, suf, by simpa using he, hne, hpos, ?_⟩
        intro kv hkv
        have hkvmem : kv ∈ p.wallets := he ▸ (by simp [hkv])
        have hkvw := get_wallet_canon hcanon hnodup hkvmem
        have := hpre kv hkv
        rw [hkvw] at this
        rintro ⟨h1, h2⟩
        simp [h1, h2] at this
      · rw [if_neg hpos] at hx2
        simp at hx2
    · rw [if_neg hne] at hx
      simp at hx
  · intro p code hcanon hnodup h
    rw [List.head?_eq_none_iff] at h
    unfold PortfolioManager.availablePaymentCurrencies at h
    rw [List.filterMap_eq_nil_iff] at h
    intro kv hkv
    have hkvw := get_wallet_canon hcanon hnodup hkv
    have := h kv hkv
    rw [hkvw] at this
    rintro ⟨h1, h2⟩
    simp [h1, h2] at this
  · intro p code hzero
    unfold PortfolioManager.availablePaymentCurrencies
    rw [List.filterMap_eq_nil_iff]
    intro kv hkv
    by_cases hne : pyUpper kv.1 ≠ pyUpper code
    · rw [if_pos hne]
      cases hw : p.get_wallet kv.1 with
      | none => rfl
      | some w =>
          have hmem := dictGet_mem hw
          have h0 : w.balance = 0 := hzero _ hmem
          show (if 0 < w.balance then some kv.1 else none) = none
          rw [if_neg (by rw [h0]; exact lt_irrefl 0)]
    · rw [if_neg hne]
  · intro user code amount ledger c portfolio hcode hamount hload hnone
    unfold PortfolioManager.buy
    simp only [hcode, not_le.mpr hamount, if_false, hload, hnone]

/-- A concrete two-wallet portfolio for the C3 witness: USD empty, EUR
funded. -/
def demoPortfolio : Portfolio :=
  ⟨1, [("USD", ⟨⟨"US Dollar", "USD", .fiat "United States"⟩, 0⟩),
       ("EUR", ⟨⟨"Euro", "EUR", .fiat "Eurozone"⟩, 5⟩)]⟩

/-- A concrete all-zero portfolio for the C3 witness. -/
def zeroPortfolio : Portfolio :=
  ⟨1, [("USD", ⟨⟨"US Dollar", "USD", .fiat "United States"⟩, 0⟩)]⟩

/-- Witness for C3: on the concrete portfolio with USD empty and EUR funded,
buying BTC selects EUR (the first positive non-target wallet); on the
all-zero portfolio the selection is empty and buy returns the
no-funding-source failure with the ledger unchanged. -/
theorem C3_funding_selection_witness :
    ((PortfolioManager.availablePaymentCurrencies demoPortfolio "BTC").head? =
      some "EUR" ∧
      ∃ pre w suf, demoPortfolio.wallets = pre ++ ("EUR", w) :: suf ∧
        pyUpper "EUR" ≠ pyUpper "BTC" ∧ 0 < w.balance ∧
        ∀ kv ∈ pre, ¬(pyUpper kv.1 ≠ pyUpper "BTC" ∧ 0 < kv.2.balance)) ∧
    (PortfolioManager.availablePaymentCurrencies zeroPortfolio "BTC" = []) ∧
    (PortfolioManager.buy (some demoUser) "BTC" 1 [zeroPortfolio.to_dict] =
      (.noFundingSource, [zeroPortfolio.to_dict])) := by
  have hcanon : ∀ kv ∈ demoPortfolio.wallets, pyUpper kv.1 = kv.1 := by
    intro kv hkv
    rcases List.mem_cons.mp hkv with h | h
    · subst h; rfl
    · rcases List.mem_cons.mp h with h' | h'
      · subst h'; rfl
      · simp at h'
  have hhead : (PortfolioManager.availablePaymentCurrencies demoPortfolio
      "BTC").head? = some "EUR" := by
    with_unfolding_all rfl
  refine ⟨⟨hhead, ?_⟩, ?_, ?_⟩
  · exact C3_funding_selection.1 demoPortfolio "BTC" "EUR" hcanon (by simp
      [demoPortfolio]) hhead
  · exact C3_funding_selection.2.2.1 zeroPortfolio "BTC" (by
      intro kv hkv
      rcases List.mem_cons.mp hkv with h | h
      · subst h; rfl
      · simp at h)
  · exact C3_funding_selection.2.2.2 demoUser "BTC" 1 [zeroPortfolio.to_dict]
      ⟨"Bitcoin", "BTC", .crypto "SHA-256"⟩ zeroPortfolio rfl
      (by norm_num)
      (by with_unfolding_all rfl)
      (by with_unfolding_all rfl)

/-! Non-negativity invariant machinery for C1. -/

/-- Every wallet in the portfolio has non-negative balance. -/
def PortfolioNonneg (p : Portfolio) : Prop :=
  ∀ kv ∈ p.wallets, 0 ≤ kv.2.balance

/-- Every serialized wallet in the record has non-negative balance. -/
def DictNonneg (pd : PortfolioDict) : Prop :=
  ∀ kv ∈ pd.wallets, 0 ≤ kv.2.balance

/-- Every record of the persisted ledger satisfies DictNonneg. -/
def LedgerNonneg (l : Ledger) : Prop :=
  ∀ pd ∈ l, DictNonneg pd

theorem updAssoc_nonneg {f : Wallet → Except VtError Wallet}
    (hf : ∀ w w', f w = .ok w' → 0 ≤ w'.balance) :
    ∀ (m m' : List (String × Wallet)) (key : String),
      updAssoc m key f = .ok m' →
      (∀ kv ∈ m, 0 ≤ kv.2.balance) → ∀ kv ∈ m', 0 ≤ kv.2.balance := by
  intro m
  induction m with
  | nil =>
      intro m' key h _
      unfold updAssoc at h
      simp at h
  | cons kw rest ih =>
      intro m' key h hm
      obtain ⟨k, w⟩ := kw
      unfold updAssoc at h
      by_cases hk : k = key
      · rw [if_pos hk] at h
        cases hfw : f w with
        | error e =>
            rw [hfw] at h
            have h' : (Except.error e :
                Except VtError (List (String × Wallet))) = .ok m' := h
            simp at h'
        | ok w' =>
            rw [hfw] at h
            have h' : (Except.ok ((k, w') :: rest) :
                Except VtError (List (String × Wallet))) = .ok m' := h
            injection h' with h'
            subst h'
            intro kv hkv
            rcases List.mem_cons.mp hkv with h' | h'
            · subst h'
              exact hf w w' hfw
            · exact hm kv (List.mem_cons_of_mem _ h')
      · rw [if_neg hk] at h
        cases hrest : updAssoc rest key f with
        | error e =>
            rw [hrest] at h
            have h' : (Except.error e :
                Except VtError (List (String × Wallet))) = .ok m' := h
            simp at h'
        | ok r =>
            rw [hrest] at h
            have h' : (Except.ok ((k, w) :: r) :
                Except VtError (List (String × Wallet))) = .ok m' := h
            injection h' with h'
            subst h'
            intro kv hkv
            rcases List.mem_cons.mp hkv with h' | h'
            · subst h'
              exact hm (k, w) (List.mem_cons_self _ _)
            · exact ih r key hrest
                (fun kv' hkv' => hm kv' (List.mem_cons_of_mem _ hkv')) kv h'

theorem updateWallet_nonneg {p p' : Portfolio} {key : String}
    {f : Wallet → Except VtError Wallet}
    (hf : ∀ w w', f w = .ok w' → 0 ≤ w'.balance)
    (hupd : p.updateWallet key f = .ok p') (hp : PortfolioNonneg p) :
    PortfolioNonneg p' := by
  unfold Portfolio.updateWallet at hupd
  cases hws : updAssoc p.wallets key f with
  | error e =>
      rw [hws] at hupd
      have h' : (Except.error e : Except VtError Portfolio) = .ok p' := hupd
      simp at h'
  | ok ws =>
      rw [hws] at hupd
      have h' : (Except.ok (⟨p.user_id, ws⟩ : Portfolio) :
          Except VtError Portfolio) = .ok p' := hupd
      injection h' with h'
      subst h'
      exact updAssoc_nonneg hf p.wallets ws key hws hp

theorem add_wallet_ok {p : Portfolio} {c : String} {w : Wallet}
    {p' : Portfolio} (h : p.add_wallet c = .ok (w, p')) :
    w.balance = 0 ∧ p'.user_id = p.user_id ∧
      p'.wallets = dictInsert p.wallets (pyUpper c) w := by
  unfold Portfolio.add_wallet at h
  by_cases hs : (dictGet p.wallets (pyUpper c)).isSome
  · rw [if_pos hs] at h; simp at h
  · rw [if_neg hs] at h
    cases hw : mkWallet (pyUpper c) 0 with
    | error e =>
        rw [hw] at h
        have h' : (Except.error e : Except VtError (Wallet × Portfolio)) =
            .ok (w, p') := h
        simp at h'
    | ok w0 =>
        rw [hw] at h
        have h' : (Except.ok (w0, (⟨p.user_id, dictInsert p.wallets (pyUpper c) w0⟩ :
            Portfolio)) : Except VtError (Wallet × Portfolio)) = .ok (w, p') := h
        injection h' with h'
        injection h' with h1 h2
        subst h1
        subst h2
        exact ⟨(mkWallet_ok hw).2, rfl, rfl⟩

theorem ensureWallet_nonneg {p p1 : Portfolio} {code : String}
    (h : PortfolioManager.ensureWallet p code = .ok p1)
    (hp : PortfolioNonneg p) : PortfolioNonneg p1 := by
  unfold PortfolioManager.ensureWallet at h
  cases hw : p.get_wallet code with
  | some w =>
      rw [hw] at h
      have h' : (Except.ok p : Except VtError Portfolio) = .ok p1 := h
      injection h' with h'
      subst h'
      exact hp
  | none =>
      rw [hw] at h
      cases ha : p.add_wallet code with
      | error e => rw [ha] at h; simp [Except.map] at h
      | ok r =>
          rw [ha] at h
          obtain ⟨w0, p'⟩ := r
          have h' : (Except.ok p' : Except VtError Portfolio) = .ok p1 := h
          injection h' with h'
          subst h'
          obtain ⟨hbal, _, hws⟩ := add_wallet_ok ha
          intro kv hkv
          rw [hws] at hkv
          rcases dictInsert_mem hkv with h' | h'
          · exact hp kv h'
          · subst h'
            simp [hbal]

theorem to_dict_nonneg {p : Portfolio} (hp : PortfolioNonneg p) :
    DictNonneg p.to_dict := by
  intro kv hkv
  unfold Portfolio.to_dict at hkv
  simp only [List.mem_map] at hkv
  obtain ⟨kv', hkv', he⟩ := hkv
  subst he
  exact hp kv' hkv'

theorem from_dict_nonneg {pd : PortfolioDict} {p : Portfolio}
    (h : Portfolio.from_dict pd = .ok p) (hpd : DictNonneg pd) :
    PortfolioNonneg p :=
  from_dict_prop (fun w => 0 ≤ w.balance) h
    (fun kv hkv w hw => by
      have hb := (mkWallet_ok hw).2
      show 0 ≤ w.balance
      rw [hb]
      exact hpd kv hkv)

theorem loadOrCreate_nonneg {ledger : Ledger} {uid : Int} {p : Portfolio}
    (h : PortfolioManager.loadOrCreate ledger uid = .ok p)
    (hl : LedgerNonneg ledger) : PortfolioNonneg p := by
  unfold PortfolioManager.loadOrCreate at h
  cases hf : ledger.find? (fun p => p.user_id == uid) with
  | some pd =>
      rw [hf] at h
      exact from_dict_nonneg h (hl pd (List.mem_of_find?_eq_some hf))
  | none =>
      rw [hf] at h
      have h' : (Except.ok (Portfolio.empty uid) : Except VtError Portfolio) =
          .ok p := h
      injection h' with h'
      subst h'
      intro kv hkv
      simp [Portfolio.empty] at hkv

theorem saveLedger_nonneg :
    ∀ (ledger : Ledger) (uid : Int) (pd : PortfolioDict),
      LedgerNonneg ledger → DictNonneg pd →
      LedgerNonneg (saveLedger ledger uid pd) := by
  intro ledger
  induction ledger with
  | nil =>
      intro uid pd hl hpd q hq
      unfold saveLedger at hq
      simp at hq
      subst hq
      exact hpd
  | cons r rest ih =>
      intro uid pd hl hpd q hq
      unfold saveLedger at hq
      by_cases hr : r.user_id = uid
      · rw [if_pos hr] at hq
        rcases List.mem_cons.mp hq with h' | h'
        · subst h'; exact hpd
        · exact hl q (List.mem_cons_of_mem _ h')
      · rw [if_neg hr] at hq
        rcases List.mem_cons.mp hq with h' | h'
        · rw [h']; exact hl r (List.mem_cons_self _ _)
        · exact ih uid pd (fun s hs => hl s (List.mem_cons_of_mem _ hs)) hpd q h'

theorem replaceLedger_nonneg :
    ∀ (ledger : Ledger) (uid : Int) (pd : PortfolioDict),
      LedgerNonneg ledger → DictNonneg pd →
      LedgerNonneg (replaceLedger ledger uid pd) := by
  intro ledger
  induction ledger with
  | nil =>
      intro uid pd hl hpd q hq
      unfold replaceLedger at hq
      simp at hq
  | cons r rest ih =>
      intro uid pd hl hpd q hq
      unfold replaceLedger at hq
      by_cases hr : r.user_id = uid
      · rw [if_pos hr] at hq
        rcases List.mem_cons.mp hq with h' | h'
        · subst h'; exact hpd
        · exact hl q (List.mem_cons_of_mem _ h')
      · rw [if_neg hr] at hq
        rcases List.mem_cons.mp hq with h' | h'
        · rw [h']; exact hl r (List.mem_cons_self _ _)
        · exact ih uid pd (fun s hs => hl s (List.mem_cons_of_mem _ hs)) hpd q h'

theorem withdraw_preserves_nonneg (a : ℚ) :
    ∀ w w' : Wallet, w.withdraw a = .ok w' → 0 ≤ w'.balance :=
  fun _ _ h => (withdraw_ok h).2.2.2.2

theorem deposit_preserves_nonneg (a : ℚ) :
    ∀ w w' : Wallet, w.deposit a = .ok w' → 0 ≤ w'.balance :=
  fun _ _ h => (deposit_ok h).2.2.2

theorem buy_nonneg (cu : Option User) (code : String) (amount : ℚ)
    (ledger : Ledger) (h : LedgerNonneg ledger) :
    LedgerNonneg (PortfolioManager.buy cu code amount ledger).2 := by
  unfold PortfolioManager.buy
  cases cu with
  | none => exact h
  | some user =>
    simp only []
    cases hcur : get_currency code with
    | error e => exact h
    | ok c =>
      simp only []
      by_cases hamt : amount ≤ 0
      · rw [if_pos hamt]; exact h
      · rw [if_neg hamt]
        cases hload : PortfolioManager.loadOrCreate ledger user.user_id with
        | error e => exact h
        | ok p =>
          simp only []
          cases hhead :
              (PortfolioManager.availablePaymentCurrencies p code).head? with
          | none => exact h
          | some pk =>
            simp only []
            cases hpw : p.get_wallet pk with
            | none => exact h
            | some pw =>
              simp only []
              cases hrate : get_exchange_rate RECURSION_LIMIT code pk with
              | error e => exact h
              | ok rate =>
                simp only []
                by_cases hcost : pw.balance < amount * rate
                · rw [if_pos hcost]; exact h
                · rw [if_neg hcost]
                  cases hens : PortfolioManager.ensureWallet p code with
                  | error e => exact h
                  | ok p1 =>
                    simp only []
                    cases hupd1 : p1.updateWallet (pyUpper pk)
                        (fun w => w.withdraw (amount * rate)) with
                    | error e => cases e <;> exact h
                    | ok p2 =>
                      simp only []
                      cases hupd2 : p2.updateWallet (pyUpper code)
                          (fun w => w.deposit amount) with
                      | error e => cases e <;> exact h
                      | ok p3 =>
                          simp only []
                          have hp := loadOrCreate_nonneg hload h
                          have hp1 := ensureWallet_nonneg hens hp
                          have hp2 := updateWallet_nonneg
                            (withdraw_preserves_nonneg (amount * rate)) hupd1 hp1
                          have hp3 := updateWallet_nonneg
                            (deposit_preserves_nonneg amount) hupd2 hp2
                          exact saveLedger_nonneg ledger user.user_id
                            p3.to_dict h (to_dict_nonneg hp3)

theorem sell_nonneg (cu : Option User) (code : String) (amount : ℚ)
    (ledger : Ledger) (h : LedgerNonneg ledger) :
    LedgerNonneg (PortfolioManager.sell cu code amount ledger).2 := by
  unfold PortfolioManager.sell
  cases cu with
  | none => exact h
  | some user =>
    simp only []
    cases hcur : get_currency code with
    | error e => exact h
    | ok c =>
      simp only []
      by_cases hamt : amount ≤ 0
      · rw [if_pos hamt]; exact h
      · rw [if_neg hamt]
        cases hfind : ledger.find? (fun p => p.user_id == user.user_id) with
        | none => exact h
        | some pd =>
          simp only []
          cases hfd : Portfolio.from_dict pd with
          | error e => exact h
          | ok portfolio =>
            simp only []
            cases hsw : portfolio.get_wallet code with
            | none => exact h
            | some source_wallet =>
              simp only []
              by_cases hbal : source_wallet.balance < amount
              · rw [if_pos hbal]; exact h
              · rw [if_neg hbal]
                cases hrate : get_exchange_rate RECURSION_LIMIT code
                    (PortfolioManager.sellTargetCurrency portfolio code) with
                | error e => exact h
                | ok rate =>
                  simp only []
                  cases hens : PortfolioManager.ensureWallet portfolio
                      (PortfolioManager.sellTargetCurrency portfolio code) with
                  | error e => exact h
                  | ok p1 =>
                    simp only []
                    cases hupd1 : p1.updateWallet (pyUpper code)
                        (fun w => w.withdraw amount) with
                    | error e => exact h
                    | ok p2 =>
                      simp only []
                      cases hupd2 : p2.updateWallet
                          (pyUpper (PortfolioManager.sellTargetCurrency
                            portfolio code))
                          (fun w => w.deposit (amount * rate)) with
                      | error e => exact h
                      | ok p3 =>
                          simp only []
                          have hpd := h pd (List.mem_of_find?_eq_some hfind)
                          have hp := from_dict_nonneg hfd hpd
                          have hp1 := ensureWallet_nonneg hens hp
                          have hp2 := updateWallet_nonneg
                            (withdraw_preserves_nonneg amount) hupd1 hp1
                          have hp3 := updateWallet_nonneg
                            (deposit_preserves_nonneg (amount * rate)) hupd2 hp2
                          exact replaceLedger_nonneg ledger user.user_id
                            p3.to_dict h (to_dict_nonneg hp3)

theorem deposit_nonneg (cu : Option User) (code : String) (amount : ℚ)
    (ledger : Ledger) (h : LedgerNonneg ledger) :
    LedgerNonneg (PortfolioManager.deposit cu code amount ledger).2 := by
  unfold PortfolioManager.deposit
  cases cu with
  | none => exact h
  | some user =>
    simp only []
    by_cases hamt : amount ≤ 0
    · rw [if_pos hamt]; exact h
    · rw [if_neg hamt]
      cases hcur : get_currency code with
      | error e => exact h
      | ok c =>
        simp only []
        cases hload : PortfolioManager.loadOrCreate ledger user.user_id with
        | error e => exact h
        | ok p =>
          simp only []
          cases hens : PortfolioManager.ensureWallet p code with
          | error e => exact h
          | ok p1 =>
            simp only []
            cases hupd : p1.updateWallet (pyUpper code)
                (fun w => w.deposit amount) with
            | error e => exact h
            | ok p2 =>
                simp only []
                have hp := loadOrCreate_nonneg hload h
                have hp1 := ensureWallet_nonneg hens hp
                have hp2 := updateWallet_nonneg
                  (deposit_preserves_nonneg amount) hupd hp1
                exact saveLedger_nonneg ledger user.user_id p2.to_dict h
                  (to_dict_nonneg hp2)

/-- One trade-engine call in a sequence: the operations quantified over in
the non-negativity invariant. -/
inductive Op where
  | depositOp (code : String) (amount : ℚ)
  | buyOp (code : String) (amount : ℚ)
  | sellOp (code : String) (amount : ℚ)

/-- The ledger after one call (successful or failed). -/
def applyOp (cu : Option User) (ledger : Ledger) (op : Op) : Ledger :=
  match op with
  | .depositOp code amount =>
      (PortfolioManager.deposit cu code amount ledger).2
  | .buyOp code amount => (PortfolioManager.buy cu code amount ledger).2
  | .sellOp code amount => (PortfolioManager.sell cu code amount ledger).2

/-- The ledger after a whole sequence of calls. -/
def runOps (cu : Option User) (ledger : Ledger) (ops : List Op) : Ledger :=
  ops.foldl (applyOp cu) ledger

/-- C1: across any sequence of deposit, buy and sell calls, successful or
failed, a ledger whose balances are all non-negative keeps all balances
non-negative; moreover a Wallet.withdraw whose success would make the
balance negative fails with InsufficientFundsError without touching the
balance, and a Wallet.deposit whose success would make the balance negative
(only possible for a non-positive amount) fails with ValueError. -/
theorem C1_nonneg_invariant :
    (∀ (cu : Option User) (ops : List Op) (ledger : Ledger),
      LedgerNonneg ledger → LedgerNonneg (runOps cu ledger ops)) ∧
    (∀ (w : Wallet) (amount : ℚ), 0 ≤ w.balance → w.balance - amount < 0 →
      w.withdraw amount =
        .error (.insufficientFunds w.currency_code w.balance amount)) ∧
    (∀ (w : Wallet) (amount : ℚ), 0 ≤ w.balance → w.balance + amount < 0 →
      w.deposit amount =
        .error (.valueError "deposit amount must be positive")) := by
  refine ⟨?_, ?_, ?_⟩
  · intro cu ops
    induction ops with
    | nil => intro ledger h; exact h
    | cons op rest ih =>
        intro ledger h
        have hstep : runOps cu ledger (op :: rest) =
            runOps cu (applyOp cu ledger op) rest := by
          unfold runOps
          rw [List.foldl_cons]
        rw [hstep]
        apply ih
        cases op with
        | depositOp c a => exact deposit_nonneg cu c a ledger h
        | buyOp c a => exact buy_nonneg cu c a ledger h
        | sellOp c a => exact sell_nonneg cu c a ledger h
  · intro w amount hw hneg
    have hpos : 0 < amount := by linarith
    have hgt : amount > w.balance := by linarith
    unfold Wallet.withdraw
    rw [if_neg (not_le.mpr hpos), if_pos hgt]
  · intro w amount hw hneg
    have hle : amount ≤ 0 := by linarith
    unfold Wallet.deposit
    rw [if_pos hle]

/-- Witness for C1: a concrete five-call session from the empty ledger stays
non-negative, and concrete violating withdraw and deposit calls fail with
the expected errors. -/
theorem C1_nonneg_invariant_witness :
    (LedgerNonneg ([] : Ledger) ∧
      LedgerNonneg (runOps (some demoUser) []
        [.depositOp "USD" 100, .buyOp "BTC" (1/1000), .sellOp "BTC" (1/2000),
         .buyOp "XYZ" 5, .depositOp "EUR" (-3)])) ∧
    ((0 : ℚ) ≤ (1 : ℚ) ∧ (1 : ℚ) - 2 < 0 ∧
      Wallet.withdraw ⟨⟨"US Dollar", "USD", .fiat "United States"⟩, 1⟩ 2 =
        .error (.insufficientFunds
          (Wallet.currency_code
            ⟨⟨"US Dollar", "USD", .fiat "United States"⟩, 1⟩) 1 2)) ∧
    ((0 : ℚ) ≤ (1 : ℚ) ∧ (1 : ℚ) + (-2) < 0 ∧
      Wallet.deposit ⟨⟨"US Dollar", "USD", .fiat "United States"⟩, 1⟩ (-2) =
        .error (.valueError "deposit amount must be positive")) := by
  have hnil : LedgerNonneg ([] : Ledger) := by
    intro pd hpd
    simp at hpd
  have h01 : (0 : ℚ) ≤ (1 : ℚ) := by with_unfolding_all decide
  have h12 : (1 : ℚ) - 2 < 0 := by with_unfolding_all decide
  have h12' : (1 : ℚ) + (-2) < 0 := by with_unfolding_all decide
  exact ⟨⟨hnil, C1_nonneg_invariant.1 (some demoUser) _ [] hnil⟩,
    ⟨h01, h12, C1_nonneg_invariant.2.1 _ 2 h01 h12⟩,
    ⟨h01, h12', C1_nonneg_invariant.2.2 _ (-2) h01 h12'⟩⟩

/-! Lookup bookkeeping lemmas for the conservation claims. -/

theorem dictGet_append_singleton_ne {α : Type} {m : List (String × α)}
    {k kc : String} (v : α) (h : k ≠ kc) :
    dictGet (m ++ [(kc, v)]) k = dictGet m k := by
  induction m with
  | nil => simp [dictGet, Ne.symm h]
  | cons kv rest ih =>
      by_cases hk : kv.1 = k
      · obtain ⟨a, b⟩ := kv
        simp only at hk
        simp [dictGet, hk]
      · obtain ⟨a, b⟩ := kv
        simp only at hk
        simp [dictGet, hk, ih]

theorem updAssoc_ok_facts {f : Wallet → Except VtError Wallet} :
    ∀ {m m' : List (String × Wallet)} {key : String},
      updAssoc m key f = .ok m' →
      (∃ w w', dictGet m key = some w ∧ f w = .ok w' ∧
        dictGet m' key = some w') ∧
      (∀ k, k ≠ key → dictGet m' k = dictGet m k) ∧
      m'.map Prod.fst = m.map Prod.fst := by
  intro m
  induction m with
  | nil =>
      intro m' key h
      unfold updAssoc at h
      simp at h
  | cons kw rest ih =>
      intro m' key h
      obtain ⟨k0, w0⟩ := kw
      unfold updAssoc at h
      by_cases hk : k0 = key
      · rw [if_pos hk] at h
        cases hfw : f w0 with
        | error e =>
            rw [hfw] at h
            have h' : (Except.error e :
                Except VtError (List (String × Wallet))) = .ok m' := h
            simp at h'
        | ok w' =>
            rw [hfw] at h
            have h' : (Except.ok ((k0, w') :: rest) :
                Except VtError (List (String × Wallet))) = .ok m' := h
            injection h' with h'
            subst h'
            subst hk
            refine ⟨⟨w0, w', by simp [dictGet], hfw, by simp [dictGet]⟩, ?_, by simp⟩
            intro k hkk
            simp [dictGet, Ne.symm hkk]
      · rw [if_neg hk] at h
        cases hrest : updAssoc rest key f with
        | error e =>
            rw [hrest] at h
            have h' : (Except.error e :
                Except VtError (List (String × Wallet))) = .ok m' := h
            simp at h'
        | ok r =>
            rw [hrest] at h
            have h' : (Except.ok ((k0, w0) :: r) :
                Except VtError (List (String × Wallet))) = .ok m' := h
            injection h' with h'
            subst h'
            obtain ⟨⟨w, w', hw, hfw, hw'⟩, hother, hkeys⟩ := ih hrest
            refine ⟨⟨w, w', by simp [dictGet, hk, hw],
              hfw, by simp [dictGet, hk, hw']⟩, ?_, by simp [hkeys]⟩
            intro k hkk
            by_cases hk0 : k0 = k
            · simp [dictGet, hk0]
            · simp [dictGet, hk0, hother k hkk]

theorem updateWallet_facts {p p' : Portfolio} {key : String}
    {f : Wallet → Except VtError Wallet}
    (h : p.updateWallet key f = .ok p') :
    p'.user_id = p.user_id ∧
    (∃ w w', dictGet p.wallets key = some w ∧ f w = .ok w' ∧
      dictGet p'.wallets key = some w') ∧
    (∀ k, k ≠ key → dictGet p'.wallets k = dictGet p.wallets k) ∧
    p'.wallets.map Prod.fst = p.wallets.map Prod.fst := by
  unfold Portfolio.updateWallet at h
  cases hws : updAssoc p.wallets key f with
  | error e =>
      rw [hws] at h
      have h' : (Except.error e : Except VtError Portfolio) = .ok p' := h
      simp at h'
  | ok ws =>
      rw [hws] at h
      have h' : (Except.ok (⟨p.user_id, ws⟩ : Portfolio) :
          Except VtError Portfolio) = .ok p' := h
      injection h' with h'
      subst h'
      obtain ⟨h1, h2, h3⟩ := updAssoc_ok_facts hws
      exact ⟨rfl, h1, h2, h3⟩

theorem find?_saveLedger :
    ∀ (ledger : Ledger) (uid : Int) (pd : PortfolioDict),
      pd.user_id = uid →
      (saveLedger ledger uid pd).find? (fun p => p.user_id == uid) =
        some pd := by
  intro ledger
  induction ledger with
  | nil =>
      intro uid pd hpd
      unfold saveLedger
      simp [List.find?, hpd]
  | cons r rest ih =>
      intro uid pd hpd
      unfold saveLedger
      by_cases hr : r.user_id = uid
      · rw [if_pos hr]
        simp [List.find?, hpd]
      · rw [if_neg hr]
        simp only [List.find?_cons]
        have hb : (r.user_id == uid) = false := by simp [hr]
        rw [hb]
        exact ih uid pd hpd

theorem find?_replaceLedger :
    ∀ (ledger : Ledger) (uid : Int) (pd : PortfolioDict),
      pd.user_id = uid →
      (ledger.find? (fun p => p.user_id == uid)).isSome →
      (replaceLedger ledger uid pd).find? (fun p => p.user_id == uid) =
        some pd := by
  intro ledger
  induction ledger with
  | nil =>
      intro uid pd hpd hex
      simp [List.find?] at hex
  | cons r rest ih =>
      intro uid pd hpd hex
      unfold replaceLedger
      by_cases hr : r.user_id = uid
      · rw [if_pos hr]
        simp [List.find?, hpd]
      · rw [if_neg hr]
        simp only [List.find?_cons]
        have hb : (r.user_id == uid) = false := by simp [hr]
        rw [hb]
        apply ih uid pd hpd
        simp only [List.find?_cons] at hex
        rw [hb] at hex
        exact hex

theorem foldlM_fromDictStep_nodup :
    ∀ (l : List (String × WalletDict)) (acc ws : List (String × Wallet)),
      (l.map Prod.fst).Nodup →
      (∀ k ∈ l.map Prod.fst, dictGet acc k = none) →
      List.foldlM fromDictStep acc l = .ok ws →
      ws.map (fun kv => (kv.1, kv.2.balance)) =
        acc.map (fun kv => (kv.1, kv.2.balance)) ++
          l.map (fun kv => (kv.1, kv.2.balance)) := by
  intro l
  induction l with
  | nil =>
      intro acc ws _ _ hfold
      have h' : (Except.ok acc : Except VtError _) = .ok ws := hfold
      injection h' with h'
      subst h'
      simp
  | cons kv rest ih =>
      intro acc ws hnodup hacc hfold
      obtain ⟨k, d⟩ := kv
      rw [List.foldlM_cons] at hfold
      cases hw : Wallet.from_dict (k, d).2 with
      | error e =>
          rw [fromDictStep_err hw] at hfold
          have h' : (Except.error e : Except VtError _) = .ok ws := hfold
          simp at h'
      | ok w =>
          rw [fromDictStep_ok hw] at hfold
          have hfold' :
              List.foldlM fromDictStep (dictInsert acc k w) rest = .ok ws :=
            hfold
          have hfresh : dictGet acc k = none := hacc k (by simp)
          rw [dictInsert_fresh w hfresh] at hfold'
          simp only [List.map_cons, List.nodup_cons] at hnodup
          have hih := ih (acc ++ [(k, w)]) ws hnodup.2
            (fun k' hk' => by
              rw [dictGet_append_right _ (hacc k' (List.mem_cons_of_mem _ hk'))]
              have hkk : k ≠ k' := by
                intro he
                subst he
                exact hnodup.1 hk'
              simp [dictGet, hkk])
            hfold'
          rw [hih]
          have hbal : w.balance = d.balance := (mkWallet_ok hw).2
          simp [hbal]

theorem from_dict_balances {pd : PortfolioDict} {p : Portfolio}
    (h : Portfolio.from_dict pd = .ok p)
    (hnodup : (pd.wallets.map Prod.fst).Nodup) :
    p.user_id = pd.user_id ∧
    p.wallets.map (fun kv => (kv.1, kv.2.balance)) =
      pd.wallets.map (fun kv => (kv.1, kv.2.balance)) := by
  unfold Portfolio.from_dict at h
  cases hws : List.foldlM fromDictStep [] pd.wallets with
  | error e =>
      rw [hws] at h
      have h' : (Except.error e : Except VtError Portfolio) = .ok p := h
      simp at h'
  | ok ws =>
      rw [hws] at h
      have h' : (Except.ok (⟨pd.user_id, ws⟩ : Portfolio) :
          Except VtError Portfolio) = .ok p := h
      injection h' with h'
      subst h'
      have := foldlM_fromDictStep_nodup pd.wallets [] ws hnodup
        (by simp [dictGet]) hws
      simpa using this

theorem ensureWallet_facts {p p1 : Portfolio} {code : String}
    (h : PortfolioManager.ensureWallet p code = .ok p1) :
    p1.user_id = p.user_id ∧
    (((p.get_wallet code).isSome ∧ p1 = p) ∨
      (p.get_wallet code = none ∧ ∃ w : Wallet, w.balance = 0 ∧
        p1.wallets = p.wallets ++ [(pyUpper code, w)])) := by
  unfold PortfolioManager.ensureWallet at h
  cases hw : p.get_wallet code with
  | some w =>
      rw [hw] at h
      have h' : (Except.ok p : Except VtError Portfolio) = .ok p1 := h
      injection h' with h'
      subst h'
      exact ⟨rfl, Or.inl ⟨by simp [hw], rfl⟩⟩
  | none =>
      rw [hw] at h
      cases ha : p.add_wallet code with
      | error e => rw [ha] at h; simp [Except.map] at h
      | ok r =>
          rw [ha] at h
          obtain ⟨w0, p'⟩ := r
          have h' : (Except.ok p' : Except VtError Portfolio) = .ok p1 := h
          injection h' with h'
          subst h'
          obtain ⟨hbal, huid, hws⟩ := add_wallet_ok ha
          have hfresh : dictGet p.wallets (pyUpper code) = none := hw
          rw [dictInsert_fresh w0 hfresh] at hws
          exact ⟨huid, Or.inr ⟨rfl, w0, hbal, hws⟩⟩

theorem availHead_facts {p : Portfolio} {code pc : String}
    (hcanon : ∀ kv ∈ p.wallets, pyUpper kv.1 = kv.1)
    (hnodup : (p.wallets.map Prod.fst).Nodup)
    (hhead : (PortfolioManager.availablePaymentCurrencies p code).head? =
      some pc) :
    ∃ w, (pc, w) ∈ p.wallets ∧ pyUpper pc ≠ pyUpper code ∧ 0 < w.balance := by
  obtain ⟨pre, x, suf, he, hx, _⟩ := head?_filterMap _ p.wallets pc hhead
  have hxmem : x ∈ p.wallets := he ▸ (by simp)
  have hw := get_wallet_canon hcanon hnodup hxmem
  rw [hw] at hx
  by_cases hne : pyUpper x.1 ≠ pyUpper code
  · rw [if_pos hne] at hx
    have hx2 : (if 0 < x.2.balance then some x.1 else none) = some pc := hx
    by_cases hpos : 0 < x.2.balance
    · rw [if_pos hpos] at hx2
      injection hx2 with hx2
      subst hx2
      exact ⟨x.2, hxmem, hne, hpos⟩
    · rw [if_neg hpos] at hx2
      simp at hx2
  · rw [if_neg hne] at hx
    simp at hx

/-- The balance recorded in the persisted ledger for one user and currency
key. -/
def ledgerBalance (l : Ledger) (uid : Int) (k : String) : Option ℚ :=
  match l.find? (fun p => p.user_id == uid) with
  | some pd => (dictGet pd.wallets k).map (fun wd => wd.balance)
  | none => none

theorem to_dict_balance (p : Portfolio) (k : String) :
    (dictGet p.to_dict.wallets k).map (fun wd => wd.balance) =
      (dictGet p.wallets k).map (fun w => w.balance) := by
  unfold Portfolio.to_dict
  rw [dictGet_map]
  cases dictGet p.wallets k <;> rfl

theorem pair_map_dictGet {m1 : List (String × Wallet)}
    {m2 : List (String × WalletDict)}
    (h : m1.map (fun kv => (kv.1, kv.2.balance)) =
      m2.map (fun kv => (kv.1, kv.2.balance))) (k : String) :
    (dictGet m1 k).map (fun w => w.balance) =
      (dictGet m2 k).map (fun wd => wd.balance) := by
  have h1 := dictGet_map (fun w : Wallet => w.balance) m1 k
  have h2 := dictGet_map (fun wd : WalletDict => wd.balance) m2 k
  rw [← h1, ← h2, h]

/-- C2: a successful buy, loaded from a canonical persisted record (distinct
upper-case keys, what the program itself writes), debits the selected funding
wallet by exactly amount times the quoted rate of the target in the funding
currency, credits the target wallet by exactly the bought amount (from zero
when freshly created), and leaves every other wallet of the portfolio
unchanged. -/
theorem C2_buy_conservation
    (user : User) (code : String) (amount : ℚ) (ledger ledger' : Ledger)
    (pd : PortfolioDict)
    (hfind : ledger.find? (fun p => p.user_id == user.user_id) = some pd)
    (hnodup : (pd.wallets.map Prod.fst).Nodup)
    (hcanon : ∀ kv ∈ pd.wallets, pyUpper kv.1 = kv.1)
    (hbuy : PortfolioManager.buy (some user) code amount ledger =
      (.ok, ledger')) :
    ∃ (p : Portfolio) (pk : String) (rate b : ℚ),
      PortfolioManager.loadOrCreate ledger user.user_id = .ok p ∧
      (PortfolioManager.availablePaymentCurrencies p code).head? = some pk ∧
      pk ≠ pyUpper code ∧
      get_exchange_rate RECURSION_LIMIT code pk = .ok rate ∧
      ledgerBalance ledger user.user_id pk = some b ∧
      ledgerBalance ledger' user.user_id pk = some (b - amount * rate) ∧
      ledgerBalance ledger' user.user_id (pyUpper code) =
        some ((ledgerBalance ledger user.user_id (pyUpper code)).getD 0 +
          amount) ∧
      ∀ k, k ≠ pk → k ≠ pyUpper code →
        ledgerBalance ledger' user.user_id k =
          ledgerBalance ledger user.user_id k := by
  unfold PortfolioManager.buy at hbuy
  simp only [] at hbuy
  cases hcur : get_currency code with
  | error e =>
      rw [hcur] at hbuy
      have h2 : ((OpResult.unknownCurrency, ledger) : OpResult × Ledger) =
          (.ok, ledger') := hbuy
      simp at h2
  | ok c =>
    rw [hcur] at hbuy
    simp only [] at hbuy
    by_cases hamt : amount ≤ 0
    · rw [if_pos hamt] at hbuy
      have h2 : ((OpResult.invalidAmount, ledger) : OpResult × Ledger) =
          (.ok, ledger') := hbuy
      simp at h2
    · rw [if_neg hamt] at hbuy
      cases hload : PortfolioManager.loadOrCreate ledger user.user_id with
      | error e =>
          rw [hload] at hbuy
          have h2 : ((OpResult.crashed e, ledger) : OpResult × Ledger) =
              (.ok, ledger') := hbuy
          simp at h2
      | ok p =>
        rw [hload] at hbuy
        simp only [] at hbuy
        cases hhead :
            (PortfolioManager.availablePaymentCurrencies p code).head? with
        | none =>
            rw [hhead] at hbuy
            have h2 : ((OpResult.noFundingSource, ledger) : OpResult × Ledger) =
                (.ok, ledger') := hbuy
            simp at h2
        | some pc =>
          rw [hhead] at hbuy
          simp only [] at hbuy
          cases hpw : p.get_wallet pc with
          | none =>
              rw [hpw] at hbuy
              have h2 : ((OpResult.crashed (.valueError "attribute error"),
                  ledger) : OpResult × Ledger) = (.ok, ledger') := hbuy
              simp at h2
          | some pw =>
            rw [hpw] at hbuy
            simp only [] at hbuy
            cases hrate : get_exchange_rate RECURSION_LIMIT code pc with
            | error e =>
                rw [hrate] at hbuy
                have h2 : ((OpResult.rateUnavailable, ledger) :
                    OpResult × Ledger) = (.ok, ledger') := hbuy
                simp at h2
            | ok rate =>
              rw [hrate] at hbuy
              simp only [] at hbuy
              by_cases hcost : pw.balance < amount * rate
              · rw [if_pos hcost] at hbuy
                have h2 : ((OpResult.insufficientFunds, ledger) :
                    OpResult × Ledger) = (.ok, ledger') := hbuy
                simp at h2
              · rw [if_neg hcost] at hbuy
                cases hens : PortfolioManager.ensureWallet p code with
                | error e =>
                    rw [hens] at hbuy
                    have h2 : ((OpResult.crashed e, ledger) :
                        OpResult × Ledger) = (.ok, ledger') := hbuy
                    simp at h2
                | ok p1 =>
                  rw [hens] at hbuy
                  simp only [] at hbuy
                  cases hupd1 : p1.updateWallet (pyUpper pc)
                      (fun w => w.withdraw (amount * rate)) with
                  | error e =>
                      rw [hupd1] at hbuy
                      cases e <;> simp only [] at hbuy <;> simp at hbuy
                  | ok p2 =>
                    rw [hupd1] at hbuy
                    simp only [] at hbuy
                    cases hupd2 : p2.updateWallet (pyUpper code)
                        (fun w => w.deposit amount) with
                    | error e =>
                        rw [hupd2] at hbuy
                        cases e <;> simp only [] at hbuy <;> simp at hbuy
                    | ok p3 =>
                      rw [hupd2] at hbuy
                      simp only [] at hbuy
                      have hled : ledger' =
                          saveLedger ledger user.user_id p3.to_dict := by
                        have := congrArg Prod.snd hbuy
                        simpa using this.symm
                      -- record facts
                      have hpduid : pd.user_id = user.user_id := by
                        have := List.find?_some hfind
                        simpa using this
                      have hfd : Portfolio.from_dict pd = .ok p := by
                        unfold PortfolioManager.loadOrCreate at hload
                        rw [hfind] at hload
                        exact hload
                      obtain ⟨hpuid, hpairs⟩ := from_dict_balances hfd hnodup
                      have hkeys : p.wallets.map Prod.fst =
                          pd.wallets.map Prod.fst := by
                        have := congrArg (List.map Prod.fst) hpairs
                        simpa using this
                      have hnodupp : (p.wallets.map Prod.fst).Nodup := by
                        rw [hkeys]; exact hnodup
                      have hcanonp : ∀ kv ∈ p.wallets, pyUpper kv.1 = kv.1 := by
                        intro kv hkv
                        have hk : kv.1 ∈ pd.wallets.map Prod.fst := by
                          rw [← hkeys]
                          exact List.mem_map.mpr ⟨kv, hkv, rfl⟩
                        obtain ⟨kv', hkv', he⟩ := List.mem_map.mp hk
                        rw [← he]
                        exact hcanon kv' hkv'
                      obtain ⟨wA, hmemA, hneA, _⟩ :=
                        availHead_facts hcanonp hnodupp hhead
                      have hcpc : pyUpper pc = pc := hcanonp (pc, wA) hmemA
                      have hne2 : pc ≠ pyUpper code := by
                        rw [hcpc] at hneA
                        exact hneA
                      have hpw' : dictGet p.wallets pc = some pw := by
                        unfold Portfolio.get_wallet at hpw
                        rw [hcpc] at hpw
                        exact hpw
                      obtain ⟨huid1, hcases⟩ := ensureWallet_facts hens
                      obtain ⟨huid2, ⟨w1, w1', hGet1, hWd, hGet1'⟩,
                        hOther1, hKeys1⟩ := updateWallet_facts hupd1
                      obtain ⟨huid3, ⟨w2, w2', hGet2, hDp, hGet2'⟩,
                        hOther2, hKeys2⟩ := updateWallet_facts hupd2
                      rw [hcpc] at hGet1 hGet1' hOther1
                      -- funding wallet before the update
                      have hp1pc : dictGet p1.wallets pc = some pw := by
                        rcases hcases with ⟨_, hp1⟩ | ⟨_, w0, _, hws⟩
                        · rw [hp1]; exact hpw'
                        · rw [hws, dictGet_append_singleton_ne w0 hne2]
                          exact hpw'
                      have hw1 : w1 = pw := by
                        rw [hp1pc] at hGet1
                        injection hGet1 with h
                        exact h.symm
                      obtain ⟨hw1bal, _, _, _, _⟩ := withdraw_ok hWd
                      -- target wallet before the deposit
                      have hp2tg : dictGet p2.wallets (pyUpper code) =
                          dictGet p1.wallets (pyUpper code) :=
                        hOther1 (pyUpper code) (Ne.symm hne2)
                      obtain ⟨hw2bal, _, _, _⟩ := deposit_ok hDp
                      -- user ids line up for the save lookup
                      have huid : p3.to_dict.user_id = user.user_id := by
                        show p3.user_id = user.user_id
                        rw [huid3, huid2, huid1, hpuid, hpduid]
                      have hfind' : (saveLedger ledger user.user_id
                          p3.to_dict).find?
                            (fun q => q.user_id == user.user_id) =
                          some p3.to_dict :=
                        find?_saveLedger _ user.user_id _ huid
                      have hafter : ∀ k, ledgerBalance ledger' user.user_id k =
                          (dictGet p3.wallets k).map (fun w => w.balance) := by
                        intro k
                        rw [hled]
                        unfold ledgerBalance
                        rw [hfind']
                        exact to_dict_balance p3 k
                      have hbefore : ∀ k, ledgerBalance ledger user.user_id k =
                          (dictGet p.wallets k).map (fun w => w.balance) := by
                        intro k
                        unfold ledgerBalance
                        rw [hfind]
                        exact (pair_map_dictGet hpairs k).symm
                      refine ⟨p, pc, rate, pw.balance, rfl, hhead, hne2,
                        hrate, ?_, ?_, ?_, ?_⟩
                      · rw [hbefore, hpw']
                        rfl
                      · rw [hafter]
                        have h3 : dictGet p3.wallets pc =
                            dictGet p2.wallets pc :=
                          hOther2 pc hne2
                        rw [h3, hGet1']
                        simp [hw1bal, hw1]
                      · rw [hafter, hGet2', hbefore]
                        rcases hcases with ⟨hsome, hp1⟩ | ⟨hnone, w0, hbal0, hws⟩
                        · -- target wallet existed
                          obtain ⟨tw, htw⟩ := Option.isSome_iff_exists.mp hsome
                          have htw' : dictGet p.wallets (pyUpper code) =
                              some tw := htw
                          have hw2 : w2 = tw := by
                            rw [hp2tg, hp1, htw'] at hGet2
                            injection hGet2 with h
                            exact h.symm
                          rw [htw']
                          simp [hw2bal, hw2]
                        · -- target wallet freshly created
                          have htw' : dictGet p.wallets (pyUpper code) =
                              none := hnone
                          have hp1tg : dictGet p1.wallets (pyUpper code) =
                              some w0 := by
                            rw [hws, dictGet_append_right _ htw']
                            simp [dictGet]
                          have hw2 : w2 = w0 := by
                            rw [hp2tg, hp1tg] at hGet2
                            injection hGet2 with h
                            exact h.symm
                          rw [htw']
                          simp [hw2bal, hw2, hbal0]
                      · intro k hk1 hk2
                        rw [hafter, hbefore]
                        have h3 : dictGet p3.wallets k =
                            dictGet p2.wallets k := hOther2 k hk2
                        have h4 : dictGet p2.wallets k =
                            dictGet p1.wallets k := hOther1 k hk1
                        have h5 : dictGet p1.wallets k =
                            dictGet p.wallets k := by
                          rcases hcases with ⟨_, hp1⟩ | ⟨_, w0, _, hws⟩
                          · rw [hp1]
                          · rw [hws, dictGet_append_singleton_ne w0 hk2]
                        rw [h3, h4, h5]

/-- The persisted ledger before and after the concrete buy of the C2
witness: 100 USD, buying 0.001 BTC at the table rate BTC to USD. -/
def ledgerB0 : Ledger := [⟨1, [("USD", ⟨"USD", 100⟩)]⟩]

/-- The ledger the concrete buy writes. -/
def ledgerB1 : Ledger :=
  [⟨1, [("USD", ⟨"USD", 100 - (1/1000) * (5933721/100)⟩),
        ("BTC", ⟨"BTC", 1/1000⟩)]⟩]

/-- Witness for C2: buying 0.001 BTC against a 100 USD wallet debits USD by
0.001 times the BTC to USD rate and credits the fresh BTC wallet with
exactly 0.001. -/
theorem C2_buy_conservation_witness :
    (ledgerB0.find? (fun p => p.user_id == demoUser.user_id) =
      some ⟨1, [("USD", ⟨"USD", 100⟩)]⟩) ∧
    PortfolioManager.buy (some demoUser) "BTC" (1/1000) ledgerB0 =
      (.ok, ledgerB1) ∧
    (∃ (p : Portfolio) (pk : String) (rate b : ℚ),
      PortfolioManager.loadOrCreate ledgerB0 demoUser.user_id = .ok p ∧
      (PortfolioManager.availablePaymentCurrencies p "BTC").head? = some pk ∧
      pk ≠ pyUpper "BTC" ∧
      get_exchange_rate RECURSION_LIMIT "BTC" pk = .ok rate ∧
      ledgerBalance ledgerB0 demoUser.user_id pk = some b ∧
      ledgerBalance ledgerB1 demoUser.user_id pk =
        some (b - (1/1000) * rate) ∧
      ledgerBalance ledgerB1 demoUser.user_id (pyUpper "BTC") =
        some ((ledgerBalance ledgerB0 demoUser.user_id
          (pyUpper "BTC")).getD 0 + (1/1000)) ∧
      ∀ k, k ≠ pk → k ≠ pyUpper "BTC" →
        ledgerBalance ledgerB1 demoUser.user_id k =
          ledgerBalance ledgerB0 demoUser.user_id k) := by
  have hbuy : PortfolioManager.buy (some demoUser) "BTC" (1/1000) ledgerB0 =
      (.ok, ledgerB1) := by
    with_unfolding_all rfl
  refine ⟨rfl, hbuy, ?_⟩
  exact C2_buy_conservation demoUser "BTC" (1/1000) ledgerB0 ledgerB1
    ⟨1, [("USD", ⟨"USD", 100⟩)]⟩ rfl (by simp)
    (by
      intro kv hkv
      simp at hkv
      subst hkv
      rfl)
    hbuy

/-- The rate oracle on equal upper-cased codes, any positive fuel. -/
theorem ger_equal {f t : String} (h : pyUpper f = pyUpper t) :
    ∀ m : Nat, 1 ≤ m → get_exchange_rate m f t = .ok 1 := by
  intro m hm
  cases m with
  | zero => exact absurd hm (by simp)
  | succ n =>
      rw [get_exchange_rate]
      simp [h]

/-- The target-currency selection policy in the words of the specification:
prefer USD when the portfolio holds a USD wallet or holds no wallet other
than the source, otherwise the first currency key that differs from the raw
source string.  Written from the spec for the refinement comparison in the
corrected C4. -/
def specSellTarget (pd : PortfolioDict) (code : String) : String :=
  if (dictGet pd.wallets "USD").isSome ∨
      pd.wallets.all (fun kv => kv.1 == code) then "USD"
  else ((pd.wallets.map Prod.fst).find? (fun k => k != code)).getD "USD"

theorem sellTarget_eq_spec {p : Portfolio} {pd : PortfolioDict} {code : String}
    (hkeys : p.wallets.map Prod.fst = pd.wallets.map Prod.fst)
    (husd : (dictGet p.wallets "USD").isSome =
      (dictGet pd.wallets "USD").isSome) :
    PortfolioManager.sellTargetCurrency p code = specSellTarget pd code := by
  unfold PortfolioManager.sellTargetCurrency specSellTarget
  have hall : (pd.wallets.all fun kv => kv.1 == code) =
      ((pd.wallets.map Prod.fst).all fun k => k == code) := by
    induction pd.wallets with
    | nil => rfl
    | cons kv rest ih => simp [ih]
  by_cases husd1 : (dictGet p.wallets "USD").isSome
  · have h1 : ¬((dictGet p.wallets "USD").isNone ∧ p.wallets ≠ []) := by
      rintro ⟨ha, _⟩
      rw [Option.isNone_iff_eq_none] at ha
      rw [ha] at husd1
      simp at husd1
    rw [if_neg h1, if_pos (Or.inl (husd ▸ husd1))]
  · have husdP : dictGet p.wallets "USD" = none := by
      rwa [← Option.not_isSome_iff_eq_none]
    have husdPd : dictGet pd.wallets "USD" = none := by
      rw [← Option.not_isSome_iff_eq_none, ← husd]
      exact husd1
    by_cases hnil : p.wallets = []
    · have hnil2 : pd.wallets = [] := by
        have h2 := hkeys.symm
        rw [hnil] at h2
        simpa using List.map_eq_nil_iff.mp h2
      have h1 : ¬((dictGet p.wallets "USD").isNone ∧ p.wallets ≠ []) := by
        rintro ⟨_, hne⟩
        exact hne hnil
      rw [if_neg h1, if_pos (Or.inr (by rw [hnil2]; rfl))]
    · have h1 : ((dictGet p.wallets "USD").isNone ∧ p.wallets ≠ []) :=
        ⟨by simp [husdP], hnil⟩
      rw [if_pos h1]
      cases hfk : (p.wallets.map Prod.fst).find? (fun k => k != code) with
      | some k =>
          have hfk2 : (pd.wallets.map Prod.fst).find?
              (fun k => k != code) = some k := by
            rw [← hkeys]
            exact hfk
          have hcond : ¬((dictGet pd.wallets "USD").isSome ∨
              pd.wallets.all (fun kv => kv.1 == code)) := by
            rintro (h2 | h2)
            · rw [husdPd] at h2
              simp at h2
            · rw [hall] at h2
              have hp := List.find?_some hfk2
              have hmem := List.mem_of_find?_eq_some hfk2
              have hq := List.all_eq_true.mp h2 k hmem
              simp at hp hq
              exact hp hq
          rw [if_neg hcond, hfk2]
          rfl
      | none =>
          have hfk2 : (pd.wallets.map Prod.fst).find?
              (fun k => k != code) = none := by
            rw [← hkeys]
            exact hfk
          have hcond : ((dictGet pd.wallets "USD").isSome ∨
              pd.wallets.all (fun kv => kv.1 == code)) := by
            right
            rw [hall, List.all_eq_true]
            intro k hmem
            have := List.find?_eq_none.mp hfk2 k hmem
            simpa using this
          rw [if_pos hcond]

theorem sellTarget_upper {p : Portfolio} {code : String}
    (hcanon : ∀ kv ∈ p.wallets, pyUpper kv.1 = kv.1) :
    pyUpper (PortfolioManager.sellTargetCurrency p code) =
      PortfolioManager.sellTargetCurrency p code := by
  unfold PortfolioManager.sellTargetCurrency
  by_cases h1 : ((dictGet p.wallets "USD").isNone ∧ p.wallets ≠ [])
  · rw [if_pos h1]
    cases hfk : (p.wallets.map Prod.fst).find? (fun k => k != code) with
    | some k =>
        show pyUpper k = k
        have hmem := List.mem_of_find?_eq_some hfk
        obtain ⟨kv, hkv, he⟩ := List.mem_map.mp hmem
        rw [← he]
        exact hcanon kv hkv
    | none => rfl
  · rw [if_neg h1]
    rfl

/-- The persisted ledger of the C4 counterexample: BTC one coin, EUR five,
no USD wallet. -/
def ledgerC0 : Ledger := [⟨1, [("BTC", ⟨"BTC", 1⟩), ("EUR", ⟨"EUR", 5⟩)]⟩]

/-- Counterexample to C4 as stated: selling with the lower-case source
string btc on a portfolio holding BTC and EUR succeeds, but the raw string
comparison of the target-selection loop picks the key BTC — the source
itself — instead of the first non-source currency EUR, so the sale deposits
back into the source wallet: no wallet changes, the source is not debited
and no other wallet receives the revenue. -/
theorem C4_counterexample :
    PortfolioManager.sell (some demoUser) "btc" (1/2) ledgerC0 =
      (.ok, ledgerC0) ∧
    ledgerBalance ledgerC0 1 "BTC" = some 1 ∧
    ledgerBalance ledgerC0 1 "EUR" = some 5 ∧
    some (1 : ℚ) ≠ some ((1 : ℚ) - 1/2) ∧
    PortfolioManager.sellTargetCurrency
      ⟨1, [("BTC", ⟨⟨"Bitcoin", "BTC", .crypto "SHA-256"⟩, 1⟩),
           ("EUR", ⟨⟨"Euro", "EUR", .fiat "Eurozone"⟩, 5⟩)]⟩ "btc" = "BTC" := by
  refine ⟨by with_unfolding_all rfl, by rfl, by rfl,
    by with_unfolding_all decide, by rfl⟩

/-- C4 (amended): for a successful sell whose source code is given in
canonical upper-case form, loaded from a canonical persisted record, the
chosen target currency is exactly the specified policy (USD when the
portfolio holds a USD wallet or holds no wallet other than the source,
otherwise the first other currency in iteration order); when that target
differs from the source, the source is debited by the amount and the target
credited with amount times the quoted rate, all other wallets unchanged;
when the target equals the source (possible only for a USD source), the
rate is 1 and the two transfers cancel, leaving every balance unchanged.
The original claim fails for lower-case source strings because the
selection loop compares raw strings (see the counterexample). -/
theorem C4_sell_target (user : User) (code : String) (amount : ℚ)
    (ledger ledger' : Ledger) (pd : PortfolioDict)
    (hupper : pyUpper code = code)
    (hfind : ledger.find? (fun p => p.user_id == user.user_id) = some pd)
    (hnodup : (pd.wallets.map Prod.fst).Nodup)
    (hcanon : ∀ kv ∈ pd.wallets, pyUpper kv.1 = kv.1)
    (hsell : PortfolioManager.sell (some user) code amount ledger =
      (.ok, ledger')) :
    ∃ (p : Portfolio) (rate b : ℚ),
      Portfolio.from_dict pd = .ok p ∧
      PortfolioManager.sellTargetCurrency p code = specSellTarget pd code ∧
      get_exchange_rate RECURSION_LIMIT code (specSellTarget pd code) =
        .ok rate ∧
      ledgerBalance ledger user.user_id code = some b ∧
      (if specSellTarget pd code = code then
        rate = 1 ∧
        ∀ k, ledgerBalance ledger' user.user_id k =
          ledgerBalance ledger user.user_id k
      else
        ledgerBalance ledger' user.user_id code = some (b - amount) ∧
        ledgerBalance ledger' user.user_id (specSellTarget pd code) =
          some ((ledgerBalance ledger user.user_id
            (specSellTarget pd code)).getD 0 + amount * rate) ∧
        ∀ k, k ≠ code → k ≠ specSellTarget pd code →
          ledgerBalance ledger' user.user_id k =
            ledgerBalance ledger user.user_id k) := by
  unfold PortfolioManager.sell at hsell
  simp only [] at hsell
  cases hcur : get_currency code with
  | error e =>
      rw [hcur] at hsell
      have h2 : ((OpResult.unknownCurrency, ledger) : OpResult × Ledger) =
          (.ok, ledger') := hsell
      simp at h2
  | ok c =>
    rw [hcur] at hsell
    simp only [] at hsell
    by_cases hamt : amount ≤ 0
    · rw [if_pos hamt] at hsell
      have h2 : ((OpResult.invalidAmount, ledger) : OpResult × Ledger) =
          (.ok, ledger') := hsell
      simp at h2
    · rw [if_neg hamt] at hsell
      rw [hfind] at hsell
      simp only [] at hsell
      cases hfd : Portfolio.from_dict pd with
      | error e =>
          rw [hfd] at hsell
          have h2 : ((OpResult.crashed e, ledger) : OpResult × Ledger) =
              (.ok, ledger') := hsell
          simp at h2
      | ok p =>
        rw [hfd] at hsell
        simp only [] at hsell
        cases hsw : p.get_wallet code with
        | none =>
            rw [hsw] at hsell
            have h2 : ((OpResult.noWallet, ledger) : OpResult × Ledger) =
                (.ok, ledger') := hsell
            simp at h2
        | some sw =>
          rw [hsw] at hsell
          simp only [] at hsell
          by_cases hbal : sw.balance < amount
          · rw [if_pos hbal] at hsell
            have h2 : ((OpResult.insufficientFunds, ledger) :
                OpResult × Ledger) = (.ok, ledger') := hsell
            simp at h2
          · rw [if_neg hbal] at hsell
            cases hrate : get_exchange_rate RECURSION_LIMIT code
                (PortfolioManager.sellTargetCurrency p code) with
            | error e =>
                rw [hrate] at hsell
                have h2 : ((OpResult.rateUnavailable, ledger) :
                    OpResult × Ledger) = (.ok, ledger') := hsell
                simp at h2
            | ok rate =>
              rw [hrate] at hsell
              simp only [] at hsell
              cases hens : PortfolioManager.ensureWallet p
                  (PortfolioManager.sellTargetCurrency p code) with
              | error e =>
                  rw [hens] at hsell
                  have h2 : ((OpResult.crashed e, ledger) :
                      OpResult × Ledger) = (.ok, ledger') := hsell
                  simp at h2
              | ok p1 =>
                rw [hens] at hsell
                simp only [] at hsell
                cases hupd1 : p1.updateWallet (pyUpper code)
                    (fun w => w.withdraw amount) with
                | error e =>
                    rw [hupd1] at hsell
                    have h2 : ((OpResult.caughtError, ledger) :
                        OpResult × Ledger) = (.ok, ledger') := hsell
                    simp at h2
                | ok p2 =>
                  rw [hupd1] at hsell
                  simp only [] at hsell
                  cases hupd2 : p2.updateWallet
                      (pyUpper (PortfolioManager.sellTargetCurrency p code))
                      (fun w => w.deposit (amount * rate)) with
                  | error e =>
                      rw [hupd2] at hsell
                      have h2 : ((OpResult.caughtError, ledger) :
                          OpResult × Ledger) = (.ok, ledger') := hsell
                      simp at h2
                  | ok p3 =>
                    rw [hupd2] at hsell
                    simp only [] at hsell
                    have hled : ledger' =
                        replaceLedger ledger user.user_id p3.to_dict := by
                      have := congrArg Prod.snd hsell
                      simpa using this.symm
                    have hpduid : pd.user_id = user.user_id := by
                      have := List.find?_some hfind
                      simpa using this
                    obtain ⟨hpuid, hpairs⟩ := from_dict_balances hfd hnodup
                    have hkeys : p.wallets.map Prod.fst =
                        pd.wallets.map Prod.fst := by
                      have := congrArg (List.map Prod.fst) hpairs
                      simpa using this
                    have hcanonp : ∀ kv ∈ p.wallets, pyUpper kv.1 = kv.1 := by
                      intro kv hkv
                      have hk : kv.1 ∈ pd.wallets.map Prod.fst := by
                        rw [← hkeys]
                        exact List.mem_map.mpr ⟨kv, hkv, rfl⟩
                      obtain ⟨kv', hkv', he⟩ := List.mem_map.mp hk
                      rw [← he]
                      exact hcanon kv' hkv'
                    have husdeq : (dictGet p.wallets "USD").isSome =
                        (dictGet pd.wallets "USD").isSome := by
                      have h := pair_map_dictGet hpairs "USD"
                      cases h1 : dictGet p.wallets "USD" <;>
                        cases h2 : dictGet pd.wallets "USD" <;> simp_all
                    have hseq := @sellTarget_eq_spec p pd code hkeys husdeq
                    have htgtU : pyUpper
                        (PortfolioManager.sellTargetCurrency p code) =
                        PortfolioManager.sellTargetCurrency p code :=
                      sellTarget_upper hcanonp
                    have hsw' : dictGet p.wallets code = some sw := by
                      unfold Portfolio.get_wallet at hsw
                      rw [hupper] at hsw
                      exact hsw
                    obtain ⟨huid1, hcases⟩ := ensureWallet_facts hens
                    obtain ⟨huid2, ⟨w1, w1', hGet1, hWd, hGet1'⟩,
                      hOther1, hKeys1⟩ := updateWallet_facts hupd1
                    obtain ⟨huid3, ⟨w2, w2', hGet2, hDp, hGet2'⟩,
                      hOther2, hKeys2⟩ := updateWallet_facts hupd2
                    rw [hupper] at hGet1 hGet1' hOther1
                    rw [htgtU] at hGet2 hGet2' hOther2 hcases
                    obtain ⟨hw1bal, _, _, _, _⟩ := withdraw_ok hWd
                    obtain ⟨hw2bal, _, _, _⟩ := deposit_ok hDp
                    have huid : p3.to_dict.user_id = user.user_id := by
                      show p3.user_id = user.user_id
                      rw [huid3, huid2, huid1, hpuid, hpduid]
                    have hfind' : (replaceLedger ledger user.user_id
                        p3.to_dict).find?
                          (fun q => q.user_id == user.user_id) =
                        some p3.to_dict := by
                      apply find?_replaceLedger _ user.user_id _ huid
                      rw [hfind]
                      rfl
                    have hafter : ∀ k, ledgerBalance ledger' user.user_id k =
                        (dictGet p3.wallets k).map (fun w => w.balance) := by
                      intro k
                      rw [hled]
                      unfold ledgerBalance
                      rw [hfind']
                      exact to_dict_balance p3 k
                    have hbefore : ∀ k, ledgerBalance ledger user.user_id k =
                        (dictGet p.wallets k).map (fun w => w.balance) := by
                      intro k
                      unfold ledgerBalance
                      rw [hfind]
                      exact (pair_map_dictGet hpairs k).symm
                    refine ⟨p, rate, sw.balance, rfl, hseq,
                      by rw [← hseq]; exact hrate, ?_, ?_⟩
                    · rw [hbefore, hsw']
                      rfl
                    · rw [← hseq]
                      by_cases htc :
                          PortfolioManager.sellTargetCurrency p code = code
                      · rw [if_pos htc]
                        have hr1 : rate = 1 := by
                          have h1 := @ger_equal code
                            (PortfolioManager.sellTargetCurrency p code)
                            (by rw [htgtU, htc]; exact hupper) RECURSION_LIMIT
                            (by norm_num [RECURSION_LIMIT])
                          rw [hrate] at h1
                          exact Except.ok.inj h1
                        refine ⟨hr1, ?_⟩
                        intro k
                        rw [hafter, hbefore]
                        by_cases hk : k = code
                        · subst hk
                          have hp1k : dictGet p1.wallets k = some sw := by
                            rcases hcases with ⟨_, hp1⟩ | ⟨hnone, _, _, _⟩
                            · rw [hp1]; exact hsw'
                            · rw [htc] at hnone
                              unfold Portfolio.get_wallet at hnone
                              rw [hupper] at hnone
                              rw [hsw'] at hnone
                              simp at hnone
                          have hw1 : w1 = sw := by
                            rw [hp1k] at hGet1
                            injection hGet1 with h
                            exact h.symm
                          have hw2 : w2 = w1' := by
                            rw [htc] at hGet2
                            rw [hGet1'] at hGet2
                            injection hGet2 with h
                            exact h.symm
                          have h3 : dictGet p3.wallets k = some w2' := by
                            rw [← htc]
                            exact hGet2'
                          rw [h3, hsw']
                          simp only [Option.map_some']
                          congr 1
                          rw [hw2bal, hw2, hw1bal, hw1, hr1]
                          ring
                        · have h3 : dictGet p3.wallets k =
                              dictGet p2.wallets k := by
                            apply hOther2
                            rw [htc]
                            exact hk
                          have h4 : dictGet p2.wallets k =
                              dictGet p1.wallets k := hOther1 k hk
                          have h5 : dictGet p1.wallets k =
                              dictGet p.wallets k := by
                            rcases hcases with ⟨_, hp1⟩ | ⟨_, w0, _, hws⟩
                            · rw [hp1]
                            · rw [hws, dictGet_append_singleton_ne w0
                                (by rw [htc]; exact hk)]
                          rw [h3, h4, h5]
                      · rw [if_neg htc]
                        have hp1c : dictGet p1.wallets code = some sw := by
                          rcases hcases with ⟨_, hp1⟩ | ⟨_, w0, _, hws⟩
                          · rw [hp1]; exact hsw'
                          · rw [hws, dictGet_append_singleton_ne w0
                              (fun he => htc he.symm)]
                            exact hsw'
                        have hw1 : w1 = sw := by
                          rw [hp1c] at hGet1
                          injection hGet1 with h
                          exact h.symm
                        refine ⟨?_, ?_, ?_⟩
                        · rw [hafter]
                          have h3 : dictGet p3.wallets code =
                              dictGet p2.wallets code :=
                            hOther2 code (fun he => htc he.symm)
                          rw [h3, hGet1']
                          simp [hw1bal, hw1]
                        · rw [hafter, hGet2', hbefore]
                          have hp2t : dictGet p2.wallets
                              (PortfolioManager.sellTargetCurrency p code) =
                              dictGet p1.wallets
                              (PortfolioManager.sellTargetCurrency p code) :=
                            hOther1 _ htc
                          rcases hcases with ⟨hsome, hp1⟩ |
                            ⟨hnone, w0, hbal0, hws⟩
                          · obtain ⟨tw, htw⟩ :=
                              Option.isSome_iff_exists.mp hsome
                            have htw' : dictGet p.wallets
                                (PortfolioManager.sellTargetCurrency p code) =
                                some tw := by
                              unfold Portfolio.get_wallet at htw
                              rw [htgtU] at htw
                              exact htw
                            have hw2 : w2 = tw := by
                              rw [hp2t, hp1, htw'] at hGet2
                              injection hGet2 with h
                              exact h.symm
                            rw [htw']
                            simp [hw2bal, hw2]
                          · have htw' : dictGet p.wallets
                                (PortfolioManager.sellTargetCurrency p code) =
                                none := by
                              unfold Portfolio.get_wallet at hnone
                              rw [htgtU] at hnone
                              exact hnone
                            have hp1t : dictGet p1.wallets
                                (PortfolioManager.sellTargetCurrency p code) =
                                some w0 := by
                              rw [hws, dictGet_append_right _ htw']
                              simp [dictGet]
                            have hw2 : w2 = w0 := by
                              rw [hp2t, hp1t] at hGet2
                              injection hGet2 with h
                              exact h.symm
                            rw [htw']
                            simp [hw2bal, hw2, hbal0]
                        · intro k hk1 hk2
                          rw [hafter, hbefore]
                          have h3 : dictGet p3.wallets k =
                              dictGet p2.wallets k := hOther2 k hk2
                          have h4 : dictGet p2.wallets k =
                              dictGet p1.wallets k := hOther1 k hk1
                          have h5 : dictGet p1.wallets k =
                              dictGet p.wallets k := by
                            rcases hcases with ⟨_, hp1⟩ | ⟨_, w0, _, hws⟩
                            · rw [hp1]
                            · rw [hws,
                                dictGet_append_singleton_ne w0 hk2]
                          rw [h3, h4, h5]

/-- Ledger for the C4 witness: only a BTC wallet holding 0.01. -/
def ledgerD0 : Ledger := [⟨1, [("BTC", ⟨"BTC", 1/100⟩)]⟩]

/-- The ledger the witness sale writes: BTC debited, fresh USD wallet
credited with the revenue. -/
def ledgerD1 : Ledger :=
  [⟨1, [("BTC", ⟨"BTC", 1/100 - 5/1000⟩),
        ("USD", ⟨"USD", 0 + (5/1000) * (5933721/100)⟩)]⟩]

/-- Witness for the amended C4: selling 0.005 BTC from a portfolio holding
only BTC defaults the target to USD, debits BTC by 0.005 and credits the
fresh USD wallet with the revenue at the BTC to USD rate. -/
theorem C4_sell_target_witness :
    pyUpper "BTC" = "BTC" ∧
    PortfolioManager.sell (some demoUser) "BTC" (5/1000) ledgerD0 =
      (.ok, ledgerD1) ∧
    specSellTarget ⟨1, [("BTC", ⟨"BTC", 1/100⟩)]⟩ "BTC" = "USD" ∧
    (∃ (p : Portfolio) (rate b : ℚ),
      Portfolio.from_dict ⟨1, [("BTC", ⟨"BTC", 1/100⟩)]⟩ = .ok p ∧
      PortfolioManager.sellTargetCurrency p "BTC" =
        specSellTarget ⟨1, [("BTC", ⟨"BTC", 1/100⟩)]⟩ "BTC" ∧
      get_exchange_rate RECURSION_LIMIT "BTC"
        (specSellTarget ⟨1, [("BTC", ⟨"BTC", 1/100⟩)]⟩ "BTC") = .ok rate ∧
      ledgerBalance ledgerD0 demoUser.user_id "BTC" = some b ∧
      (if specSellTarget ⟨1, [("BTC", ⟨"BTC", 1/100⟩)]⟩ "BTC" = "BTC" then
        rate = 1 ∧
        ∀ k, ledgerBalance ledgerD1 demoUser.user_id k =
          ledgerBalance ledgerD0 demoUser.user_id k
      else
        ledgerBalance ledgerD1 demoUser.user_id "BTC" =
          some (b - 5/1000) ∧
        ledgerBalance ledgerD1 demoUser.user_id
          (specSellTarget ⟨1, [("BTC", ⟨"BTC", 1/100⟩)]⟩ "BTC") =
          some ((ledgerBalance ledgerD0 demoUser.user_id
            (specSellTarget ⟨1, [("BTC", ⟨"BTC", 1/100⟩)]⟩ "BTC")).getD 0 +
            (5/1000) * rate) ∧
        ∀ k, k ≠ "BTC" →
          k ≠ specSellTarget ⟨1, [("BTC", ⟨"BTC", 1/100⟩)]⟩ "BTC" →
          ledgerBalance ledgerD1 demoUser.user_id k =
            ledgerBalance ledgerD0 demoUser.user_id k)) := by
  have hsell : PortfolioManager.sell (some demoUser) "BTC" (5/1000)
      ledgerD0 = (.ok, ledgerD1) := by
    with_unfolding_all rfl
  refine ⟨rfl, hsell, rfl, ?_⟩
  exact C4_sell_target demoUser "BTC" (5/1000) ledgerD0 ledgerD1
    ⟨1, [("BTC", ⟨"BTC", 1/100⟩)]⟩ rfl rfl (by simp)
    (by
      intro kv hkv
      simp at hkv
      subst hkv
      rfl)
    hsell
